import Mathlib

/-!
Verification development for the c0 compiler front-end (susji/c0).

This file contains a shallow embedding, in Lean 4, of the parts of the Go
source that the specification talks about:

* the semantic type model and `Type.Matches` (package `types`),
* the parent-linked variable scope (package `analyze`, `scope.go`),
* the token FIFO (package `token`),
* the recursive-descent / precedence-climbing parser (package `parse`),
* the CFG builder (package `cfg`),
* the SSA/IR generator (package `ssa`) and the IR interpreter (package
  `ssa/vm`),
* the equality-operator checker and the ternary-pair bookkeeping of the
  analyzer (package `analyze`).

Go idioms are mapped as follows: mutable receivers become explicit state
passing, `panic` becomes `Option.none` (or an explicit error value), Go
`error` results become `Except`/`Option`, Go maps indexed by strings or
node ids become association lists, and pointer-linked graph nodes (basic
blocks) become an id-indexed block table.  Machine integers (`int32`)
are represented as `Int` with explicit two's-complement wrapping where
the Go code can overflow.  Termination of Go loops and of recursion over
a cyclic CFG is expressed with an explicit fuel argument where needed.
-/

namespace C0

/-! ## Semantic types (Go package `types`)

`Type` in the Go source is a record of a base-type enum, a pointer level,
an array level and an `Extra` payload used by struct, forward-struct and
function types.  The `Matches` functions return `Option Bool`: `some b`
for a normal Go return of `b`, and `none` when the Go code would panic
(a failed type assertion on `Extra`, or an out-of-range slice index in
`StructFields.Matches`). -/

inductive TypeEnum where
  | int | bool | string | strct | structFwd | void | char | func | null
deriving DecidableEq, Repr

mutual
/-- `types.Type`: base enum, pointer level, array level, extra payload. -/
inductive Ty where
  | mk (type : TypeEnum) (pointerLevel : Nat) (arrayLevel : Nat)
       (extra : Option TyExtra)

/-- `types.ExtraType`: one of `*Function`, `*Struct`, `*StructForward`. -/
inductive TyExtra where
  | function (returns : Ty) (paramTypes : List Ty)
  | strct (name : String) (fields : List (String × Ty))
  | structFwd (name : String)
end

/-- Every `Ty` value has size at least three (used for termination of the
`Matches` family below). -/
theorem Ty.sizeOf_gt_two : ∀ t : Ty, 2 < sizeOf t := by
  intro t
  cases t
  rename_i ty p a e
  cases e <;> cases ty <;> simp <;> omega

def Ty.type : Ty → TypeEnum | .mk t _ _ _ => t
def Ty.pointerLevel : Ty → Nat | .mk _ p _ _ => p
def Ty.arrayLevel : Ty → Nat | .mk _ _ a _ => a
def Ty.extra : Ty → Option TyExtra | .mk _ _ _ e => e

mutual
/-- `(*Type).Matches` from `types`. The leading field comparison, then a
switch on the base type; the struct/forward/function cases type-assert on
`Extra` (a wrong payload panics, i.e. `none`). -/
def Ty.Matches : Ty → Ty → Option Bool
  | .mk t p a e, .mk t2 p2 a2 e2 =>
    if t ≠ t2 || p ≠ p2 || a ≠ a2 then some false
    else
      match t with
      | .strct =>
        match e, e2 with
        | some (.strct n f), some (.strct n2 f2) => structMatches n f n2 f2
        | _, _ => none
      | .structFwd =>
        match e, e2 with
        | some (.structFwd n), some (.structFwd n2) => some (n = n2)
        | _, _ => none
      | .func =>
        match e, e2 with
        | some (.function r ps), some (.function r2 ps2) =>
          functionMatches r ps r2 ps2
        | _, _ => none
      | _ => some true
termination_by t1 _ => sizeOf t1
decreasing_by all_goals simp_wf <;> omega

/-- `(*Function).Matches`: `f.Returns.Matches(&f2.Returns) &&
f.ParamTypes.Matches(f2.ParamTypes)` with Go's short-circuit `&&`. -/
def functionMatches (r : Ty) (ps : List Ty) (r2 : Ty) (ps2 : List Ty) :
    Option Bool :=
  match Ty.Matches r r2 with
  | none => none
  | some false => some false
  | some true => typesMatches ps ps2
termination_by sizeOf r + sizeOf ps
decreasing_by
  all_goals simp_wf
  · cases ps <;> simp <;> omega
  · have h := Ty.sizeOf_gt_two r
    omega

/-- `(Types).Matches`: a length check, then element-wise matching. -/
def typesMatches (l : List Ty) (l2 : List Ty) : Option Bool :=
  if l.length ≠ l2.length then some false else typesLoop l l2
termination_by sizeOf l + 1
decreasing_by all_goals simp_wf <;> omega

/-- the element loop of `(Types).Matches`; the `[], _ :: _` source case is
unreachable because of the length guard, but an over-long left list would
index out of range (`none`). -/
def typesLoop : List Ty → List Ty → Option Bool
  | [], _ => some true
  | _ :: _, [] => none
  | x :: xs, y :: ys =>
    match Ty.Matches x y with
    | none => none
    | some false => some false
    | some true => typesLoop xs ys
termination_by l _ => sizeOf l
decreasing_by all_goals simp_wf <;> omega

/-- `(*Struct).Matches`: `s.Name == s2.Name && s.Fields.Matches(s2.Fields)`
with short-circuit `&&`. -/
def structMatches (n : String) (f : List (String × Ty)) (n2 : String)
    (f2 : List (String × Ty)) : Option Bool :=
  if n ≠ n2 then some false else structFieldsMatches f f2
termination_by sizeOf f + 1
decreasing_by all_goals simp_wf <;> omega

/-- `(StructFields).Matches`: iterates over the receiver only — there is
no length check, so indexing `sm2[i]` past the end of the argument panics
(`none`), and a receiver that is a matching prefix of a longer argument
yields `true`. -/
def structFieldsMatches : List (String × Ty) → List (String × Ty) →
    Option Bool
  | [], _ => some true
  | _ :: _, [] => none
  | x :: xs, y :: ys =>
    match structFieldMatches x y with
    | none => none
    | some false => some false
    | some true => structFieldsMatches xs ys
termination_by f _ => sizeOf f
decreasing_by all_goals simp_wf <;> omega

/-- `(*StructField).Matches`: name equality, then type matching, with
short-circuit `&&`. -/
def structFieldMatches (x y : String × Ty) : Option Bool :=
  if x.1 ≠ y.1 then some false else Ty.Matches x.2 y.2
termination_by sizeOf x
decreasing_by all_goals simp_wf <;> cases x <;> simp_wf <;> omega
end

/-- Payload well-formedness: the `Extra` payload carried by a type agrees
with its base enum (this is exactly the situation in which the type
assertions inside `Matches` cannot panic on the diagonal).  Types with
other base enums never inspect `Extra`. -/
def Ty.WF : Ty → Prop
  | .mk t _ _ e =>
    match t, e with
    | .strct, some (.strct _ f) => ∀ x ∈ f, Ty.WF x.2
    | .strct, _ => False
    | .structFwd, some (.structFwd _) => True
    | .structFwd, _ => False
    | .func, some (.function r ps) => Ty.WF r ∧ ∀ x ∈ ps, Ty.WF x
    | .func, _ => False
    | _, _ => True
termination_by t => sizeOf t
decreasing_by
  all_goals simp_wf
  · have := List.sizeOf_lt_of_mem ‹_ ∈ f›
    rename_i x _; cases x; simp at this ⊢; omega
  · omega
  · have := List.sizeOf_lt_of_mem ‹_ ∈ ps›
    omega

/-- a struct type whose field list is a proper prefix of `c4T2`'s. -/
def c4T1 : Ty := .mk .strct 0 0 (some (.strct "s" [("a", .mk .int 0 0 none)]))

/-- a struct type with the same name and one more field than `c4T1`. -/
def c4T2 : Ty :=
  .mk .strct 0 0
    (some (.strct "s" [("a", .mk .int 0 0 none), ("b", .mk .int 0 0 none)]))

/-! ## Scopes (Go `analyze/scope.go`)

A `scope` is a parent-linked map from identifiers to types.  We represent
the chain from innermost scope outwards as a list of frames; each frame
is the `vars` map of one Go `scope` value, represented as an association
list with distinct keys (Go map semantics for the operations used). -/

/-- One scope chain, innermost frame first.  The empty list plays the
role of the `nil` parent pointer. -/
abbrev Scope := List (List (String × Ty))

/-- `(*scope).get`: walk the chain from the current scope through the
parents and return the first binding found, `none` for a miss. -/
def Scope.get : Scope → String → Option Ty
  | [], _ => none
  | f :: parents, name =>
    match f.lookup name with
    | some k => some k
    | none => Scope.get parents name

/-- `(*scope).add`: recursive search via `get` first; an existing binding
anywhere along the chain is `errVarAlreadyDefined` (here `none`),
otherwise the binding is inserted into the innermost frame. -/
def Scope.add (s : Scope) (name : String) (kind : Ty) : Option Scope :=
  match s with
  | [] => none
  | f :: parents =>
    if (Scope.get (f :: parents) name).isSome then none
    else some (((name, kind) :: f) :: parents)

/-! ## Tokens and the token FIFO (Go package `token`) -/

inductive TokKind where
  | id | decNum | hexNum | strLit | libLit | chrLit
  | lparen | rparen | lbrack | rbrack | lcurly | rcurly
  | comma | semicolon | exclam | worm | plus | minus | star | dot
  | arrow | slash | percent | lt | gt | dlt | dgt | le | ge | eq | ne
  | assign | assignPlus | assignMinus | assignStar | assignSlash
  | assignPercent | assignDLt | assignDGt | assignAmpersand | assignHat
  | assignPipe | ampersand | hat | pipe | dampersand | dpipe
  | quest | colon | dplus | dminus | useStrLit | useLibLit | brackets
  | true' | false' | null' | commentOne | commentMulti
deriving DecidableEq, Repr

/-- A token: kind and lexeme value (the source span is irrelevant to every
claim and is omitted). -/
structure Tok where
  kind : TokKind
  value : String
deriving DecidableEq, Repr

/-- The token FIFO is the remaining list of tokens; the Go methods mutate
the receiver, so each operation returns the new list alongside its
result. -/
abbrev Toks := List Tok

def Tok.isComment (t : Tok) : Bool :=
  match t.kind with
  | .commentOne | .commentMulti => true
  | _ => false

/-- `(*Tokens).Pop`: remove and return the head; `nil` when empty. -/
def Toks.pop : Toks → Option Tok × Toks
  | [] => (none, [])
  | t :: ts => (some t, ts)

/-- `(*Tokens).Peek`: pop leading comment tokens, then return (without
removing) the first non-comment token; `nil` when the stream runs out. -/
def Toks.peek : Toks → Option Tok × Toks
  | [] => (none, [])
  | t :: ts => if t.isComment then Toks.peek ts else (some t, t :: ts)

/-- `(*Tokens).PeekAll`: return the head without removing it, regardless
of kind; `nil` when empty. -/
def Toks.peekAll : Toks → Option Tok × Toks
  | [] => (none, [])
  | t :: ts => (some t, t :: ts)

/-- `(*Tokens).Accept`: `Peek`; end-of-tokens or a kind mismatch is an
error (the head stays), otherwise the head is popped. -/
def Toks.accept (k : TokKind) (ts : Toks) : Bool × Toks :=
  match Toks.peek ts with
  | (none, ts') => (false, ts')
  | (some cur, ts') =>
    if cur.kind = k then (true, (Toks.pop ts').2) else (false, ts')

/-- `(*Tokens).Find`: pop tokens until the head (after comment-skipping
`Peek`) is one of `kinds`; that head is returned and left in place.  The
Go loop is `Peek`/`Pop`; since `Peek` simply discards leading comments,
the loop is the structural recursion below. -/
def Toks.find (kinds : List TokKind) : Toks → Option Tok × Toks
  | [] => (none, [])
  | t :: ts =>
    if t.isComment then Toks.find kinds ts
    else if t.kind ∈ kinds then (some t, t :: ts)
    else Toks.find kinds ts


/-! ## AST nodes (Go package `node`)

The statement/expression node variants of package `node` that occur in
function bodies, plus `Kind`.  Each constructor carries the node id that
`node.Store` assigned (the `Common` header in Go). Top-level declaration
nodes (`FunDecl`, `Typedef`, `Struct`, ...) are not needed by any claim
about function bodies; a function definition is modelled separately as
`FunDef` below. -/

inductive UnOp where
  | neg | lognot | bitnot | deref | addone | subone | addrof
  | addonesuffix | subonesuffix
deriving DecidableEq, Repr

inductive BinOp where
  | add | sub | mul | div | mod | arrsub | funcall | structdec
  | structptrdec | ternarycond | ternaryvals | shiftr | shiftl
  | le | ge | lt | gt | eq | ne | band | bor | bxor | and | or
deriving DecidableEq, Repr

inductive AsnOp where
  | plain | add | sub | mul | div | mod | lshift | rshift | and | xor | or
deriving DecidableEq, Repr

inductive NKindEnum where
  | int | bool | string | strct | void | char | typedef
deriving DecidableEq, Repr

/-- `node.Kind`: a syntactically declared type. -/
structure NKind where
  kind : NKindEnum
  pointerLevel : Nat
  arrayLevel : Nat
  name : String
deriving DecidableEq, Repr

inductive GoNode where
  | var (id : Nat) (value : String)
  | numeric (id : Nat) (value : Int) (base : Nat)
  | strLit (id : Nat) (value : String)
  | chrLit (id : Nat) (value : Char)
  | boolLit (id : Nat) (value : Bool)
  | nullLit (id : Nat)
  | opUnary (id : Nat) (op : UnOp) (to' : GoNode)
  | opBinary (id : Nat) (op : BinOp) (left right : GoNode)
  | opAssign (id : Nat) (op : AsnOp) (to' : GoNode) (what : Option GoNode)
  | varDecl (id : Nat) (kind : NKind) (name : String)
  | block (id : Nat) (value : List GoNode)
  | ifStmt (id : Nat) (cond : GoNode) (vtrue : GoNode)
           (vfalse : Option GoNode)
  | forStmt (id : Nat) (init cond onEach body : GoNode)
  | whileStmt (id : Nat) (cond body : GoNode)
  | ret (id : Nat) (expr : Option GoNode)
  | breakStmt (id : Nat)
  | continueStmt (id : Nat)
  | assert (id : Nat) (expr : GoNode)
  | errorStmt (id : Nat) (expr : GoNode)
  | cast (id : Nat) (to' : NKind) (what : GoNode)
  | alloc (id : Nat) (kind : NKind)
  | allocArray (id : Nat) (kind : NKind) (n : GoNode)
  | args (id : Nat) (value : List GoNode)
  | kindNode (id : Nat) (kind : NKind)

/-- `node.FunDef`, restricted to the fields the CFG builder reads. -/
structure FunDef where
  name : String
  returns : NKind
  params : List (NKind × String)
  body : List GoNode

/-! ## Parser (Go package `parse`)

Parser state: the Go parser mutates the token FIFO in place and keeps a
typedef-name table; `node.Store` keeps a process-wide id counter.  All
three are threaded through `PState`.  Every parse function returns its Go
`(value, error)` pair as an `Except` together with the updated state
(Go mutates `toks` also on error paths, so the state is returned in both
cases).  `p.errorf` both records and returns an error; only the returned
error is ever consulted by the functions embedded here, so the recording
side effect is dropped. -/

inductive PErr where
  /-- `token.EOT` / `parse.EOT` -/
  | eot
  /-- the `parse.ErrAtomTypedef` marker error -/
  | atomTypedef
  /-- any other parse error (`p.errorf` / `errors.New` / `fmt.Errorf`) -/
  | err (msg : String)
  /-- a Go `panic` inside the parser (unreachable paths) -/
  | panicked (msg : String)
  /-- artefact of the embedding: recursion fuel ran out.  Never produced
  for sufficiently large fuel. -/
  | fuel
deriving DecidableEq, Repr

structure PState where
  toks : Toks
  nextId : Nat
  typedefs : List String
deriving DecidableEq

/-- `node.Store`: bump the global node id and tag the node with it (the
token-map side table is not modelled; no claim consults it). -/
def store (st : PState) (mk : Nat → GoNode) : GoNode × PState :=
  (mk (st.nextId + 1), { st with nextId := st.nextId + 1 })

/-- `analyze.IsValidPrimitive` -/
def isValidPrimitive (name : String) : Bool :=
  name = "int" || name = "bool" || name = "char" || name = "void" ||
  name = "string" || name = "struct"

/-- `analyze.IsReserved` -/
def isReserved (id : String) : Bool :=
  id = "if" || id = "while" || id = "for" || id = "return" ||
  id = "assert" || id = "error" || id = "typedef" || id = "struct" ||
  id = "int" || id = "bool" || id = "void" || id = "string" ||
  id = "char" || id = "NULL" || id = "true" || id = "false" ||
  id = "alloc" || id = "alloc_array" || id = "break" || id = "continue"

/-- `tok_to_unop` -/
def tokToUnop : TokKind → Option UnOp
  | .minus => some .neg
  | .exclam => some .lognot
  | .worm => some .bitnot
  | .star => some .deref
  | .dplus => some .addone
  | .dminus => some .subone
  | .ampersand => some .addrof
  | _ => none

/-- `tok_to_binop` -/
def tokToBinop : TokKind → Option BinOp
  | .plus => some .add
  | .minus => some .sub
  | .star => some .mul
  | .slash => some .div
  | .percent => some .mod
  | .lbrack => some .arrsub
  | .lparen => some .funcall
  | .dot => some .structdec
  | .arrow => some .structptrdec
  | .quest => some .ternarycond
  | .colon => some .ternaryvals
  | .dgt => some .shiftr
  | .dlt => some .shiftl
  | .le => some .le
  | .ge => some .ge
  | .lt => some .lt
  | .gt => some .gt
  | .eq => some .eq
  | .ne => some .ne
  | .ampersand => some .band
  | .pipe => some .bor
  | .hat => some .bxor
  | .dampersand => some .and
  | .dpipe => some .or
  | _ => none

/-- `tok_to_asnop` -/
def tokToAsnop : TokKind → Option AsnOp
  | .assign => some .plain
  | .assignPlus => some .add
  | .assignMinus => some .sub
  | .assignStar => some .mul
  | .assignSlash => some .div
  | .assignPercent => some .mod
  | .assignDLt => some .lshift
  | .assignDGt => some .rshift
  | .assignAmpersand => some .and
  | .assignHat => some .xor
  | .assignPipe => some .or
  | _ => none

/-- `tok_to_stmtsuffix` -/
def tokToStmtSuffix : TokKind → Option UnOp
  | .dplus => some .addonesuffix
  | .dminus => some .subonesuffix
  | _ => none

/-- `precedenceb`; `none` models the `panic` default branch. -/
def precedenceb : TokKind → Option Nat
  | .quest | .colon => some 0
  | .dpipe => some 1
  | .dampersand => some 2
  | .pipe => some 3
  | .hat => some 4
  | .ampersand => some 5
  | .eq | .ne => some 6
  | .lt | .gt | .le | .ge => some 7
  | .dlt | .dgt => some 8
  | .plus | .minus => some 9
  | .star | .slash | .percent => some 10
  | .arrow | .dot => some 11
  | _ => none

/-- `precedenceu`; `none` models the `panic` default branch. -/
def precedenceu : TokKind → Option Nat
  | .star | .exclam | .worm | .minus | .dplus | .dminus | .ampersand =>
    some 10
  | _ => none

/-- `isleftassocb` -/
def isleftassocb (k : TokKind) : Bool :=
  match k with
  | .quest | .colon | .assign | .assignPlus | .assignMinus | .assignStar
  | .assignSlash | .assignPercent | .assignAmpersand | .assignHat
  | .assignPipe | .assignDLt | .assignDGt => false
  | _ => true

/-- Modelled on `strconv.ParseInt(s, base, 32)` for the sign-plus-digits
strings this parser passes to it: parse an optional sign and then digits
in `base`; an empty digit string or an invalid digit is an error, and a
value outside the signed 32-bit range is an out-of-range error. -/
def digitVal (base : Nat) (c : Char) : Option Nat :=
  if '0' ≤ c ∧ c ≤ '9' ∧ c.toNat - '0'.toNat < base then
    some (c.toNat - '0'.toNat)
  else if base = 16 ∧ 'a' ≤ c ∧ c ≤ 'f' then some (c.toNat - 'a'.toNat + 10)
  else if base = 16 ∧ 'A' ≤ c ∧ c ≤ 'F' then some (c.toNat - 'A'.toNat + 10)
  else none

def digitsVal (base : Nat) : List Char → Option Nat
  | [] => none
  | [c] => digitVal base c
  | c :: cs =>
    match digitVal base c, digitsVal base cs with
    | some d, some rest => some (d * base ^ cs.length + rest)
    | _, _ => none

/-- the signed 32-bit range check of `strconv.ParseInt(_, _, 32)`. -/
def clampInt32 (z : Int) : Option Int :=
  if -2147483648 ≤ z ∧ z ≤ 2147483647 then some z else none

def goParseInt (s : String) (base : Nat) : Option Int :=
  let (neg, ds) :=
    match s.data with
    | [] => (false, ([] : List Char))
    | c :: cs =>
      if c = '-' then (true, cs)
      else if c = '+' then (false, cs)
      else (false, c :: cs)
  match digitsVal base ds with
  | none => none
  | some v => clampInt32 (if neg then -(v : Int) else (v : Int))

/-- The `<tp-suffix>` loops of `Parser.Type`: count and pop a run of
tokens of kind `k` (each iteration is a comment-skipping `Peek` followed
by `Pop`). -/
def countRun (k : TokKind) : Toks → Nat × Toks
  | [] => (0, [])
  | t :: ts =>
    if t.isComment then countRun k ts
    else if t.kind = k then
      let (n, ts2) := countRun k ts
      (n + 1, ts2)
    else (0, t :: ts)

/-- `Parser.Type`: `<tp> = <tp-atomic> [*-run] [[]-run]`.  The `Kind`
node produced at the end goes through `node.Store`, so the id counter
advances; the id itself is carried on no field that any embedded claim
reads, hence only the counter bump is kept. -/
def typeP (st : PState) : Except PErr NKind × PState :=
  match Toks.peek st.toks with
  | (none, ts) => (.error .eot, { st with toks := ts })
  | (some atom, ts) =>
    if atom.kind ≠ .id then
      (.error (.err "not a type declaration"), { st with toks := ts })
    else if ¬ isValidPrimitive atom.value ∧ atom.value ∉ st.typedefs then
      (.error (.err "typedef not defined"), { st with toks := ts })
    else
      let ts := (Toks.pop ts).2
      -- <tp-atomic>
      let core : Except PErr (NKindEnum × String) × Toks :=
        match atom.value with
        | "int" => (.ok (.int, ""), ts)
        | "bool" => (.ok (.bool, ""), ts)
        | "string" => (.ok (.string, ""), ts)
        | "char" => (.ok (.char, ""), ts)
        | "void" => (.ok (.void, ""), ts)
        | "struct" =>
          match Toks.pop ts with
          | (none, ts2) => (.error (.err "expected struct name"), ts2)
          | (some sid, ts2) =>
            if sid.kind ≠ .id then
              (.error (.err "expected struct name"), ts2)
            else (.ok (.strct, sid.value), ts2)
        | v => (.ok (.typedef, v), ts)
      match core with
      | (.error e, ts2) => (.error e, { st with toks := ts2 })
      | (.ok (kind, name), ts2) =>
        -- <tp-suffix>
        let (pointerlevel, ts3) := countRun .star ts2
        let (arraylevel, ts4) := countRun .brackets ts3
        (.ok ⟨kind, pointerlevel, arraylevel, name⟩,
         { st with toks := ts4, nextId := st.nextId + 1 })

/-- `Parser.VarDecl` (`<tp> <vid>`). -/
def varDeclP (st : PState) : Except PErr GoNode × PState :=
  match Toks.peek st.toks with
  | (none, ts) => (.error .eot, { st with toks := ts })
  | (some _, ts) =>
    match typeP { st with toks := ts } with
    | (.error e, st2) => (.error e, st2)
    | (.ok kind, st2) =>
      match Toks.peek st2.toks with
      | (none, ts2) => (.error .eot, { st2 with toks := ts2 })
      | (some next, ts2) =>
        if next.kind ≠ .id then
          (.error (.err "not a var declaration"), { st2 with toks := ts2 })
        else if isReserved next.value then
          (.error (.err "reserved identifier for variable declaration"),
           { st2 with toks := ts2 })
        else
          let st3 := { st2 with toks := (Toks.pop ts2).2 }
          let (n, st4) := store st3 (fun i => .varDecl i kind next.value)
          (.ok n, st4)

/-- Go mutates `ret.False` in place after parsing an `else` branch; the
node keeps its id. -/
def setIfFalse : GoNode → GoNode → GoNode
  | .ifStmt i c t _, f => .ifStmt i c t (some f)
  | n, _ => n

mutual

/-- `Parser.expratom`.  The unary-operator check precedes the kind
switch, exactly as in the source. -/
def exprAtom : Nat → PState → Except PErr GoNode × PState
  | 0, st => (.error .fuel, st)
  | fuel+1, st =>
    match Toks.peek st.toks with
    | (none, ts) => (.error .eot, { st with toks := ts })
    | (some this, ts) =>
      match tokToUnop this.kind with
      | some unop =>
        -- all unary operators bind right, hence the +1 to their precedence
        match precedenceu this.kind with
        | none => (.error (.panicked "invalid unary operator"),
                   { st with toks := ts })
        | some pu =>
          let st1 := { st with toks := (Toks.pop ts).2 }
          match exprParse fuel st1 (pu + 1) with
          | (.error e, st2) => (.error e, st2)
          | (.ok n, st2) =>
            let (n2, st3) := store st2 (fun i => .opUnary i unop n)
            (.ok n2, st3)
      | none =>
        match this.kind with
        | .lparen =>
          -- either a cast "(TYPE) atom" or a parenthesised subexpression
          let st1 := { st with toks := (Toks.pop ts).2 }
          match typeP st1 with
          | (.ok castkind, st2) =>
            match Toks.accept .rparen st2.toks with
            | (false, ts2) => (.error (.err "invalid cast"),
                               { st2 with toks := ts2 })
            | (true, ts2) =>
              match exprAtom fuel { st2 with toks := ts2 } with
              | (.error e, st3) => (.error e, st3)
              | (.ok castwhat, st3) =>
                let (n, st4) :=
                  store st3 (fun i => .cast i castkind castwhat)
                (.ok n, st4)
          | (.error _, st2) =>
            match exprParse fuel st2 0 with
            | (.error e, st3) => (.error e, st3)
            | (.ok parexpr, st3) =>
              match Toks.accept .rparen st3.toks with
              | (false, ts3) => (.error (.err "unbalanced parentheses"),
                                 { st3 with toks := ts3 })
              | (true, ts3) => (.ok parexpr, { st3 with toks := ts3 })
        | .decNum | .hexNum =>
          let st1 := { st with toks := (Toks.pop ts).2 }
          let base : Nat := if this.kind = .hexNum then 16 else 10
          let val := if this.kind = .hexNum ∧ this.value ≠ "0" then
              this.value.drop 2
            else this.value
          match goParseInt val base with
          | none => (.error (.err "invalid integer"), st1)
          | some pi =>
            let (n, st2) := store st1 (fun i => .numeric i pi base)
            (.ok n, st2)
        | .id =>
          let iv := this.value
          if iv ∈ st.typedefs then
            (.error .atomTypedef, { st with toks := ts })
          else if iv = "void" then
            (.error (.err "void not permitted in expressions"),
             { st with toks := ts })
          else if iv = "alloc" ∨ iv = "alloc_array" then
            let st1 := { st with toks := (Toks.pop ts).2 }
            match Toks.accept .lparen st1.toks with
            | (false, ts2) => (.error (.err "alloc missing lparen"),
                               { st1 with toks := ts2 })
            | (true, ts2) =>
              match typeP { st1 with toks := ts2 } with
              | (.error _, st2) => (.error (.err "invalid type for alloc"),
                                    st2)
              | (.ok ak, st2) =>
                if iv = "alloc_array" then
                  match Toks.accept .comma st2.toks with
                  | (false, ts3) =>
                    (.error (.err "alloc_array missing size expression"),
                     { st2 with toks := ts3 })
                  | (true, ts3) =>
                    match exprP fuel { st2 with toks := ts3 } with
                    | (.error _, st3) =>
                      (.error (.err "invalid size expression for alloc_array"),
                       st3)
                    | (.ok sz, st3) =>
                      let (retN, st4) :=
                        store st3 (fun i => .allocArray i ak sz)
                      match Toks.accept .rparen st4.toks with
                      | (false, ts4) =>
                        (.error (.err "alloc missing rparen"),
                         { st4 with toks := ts4 })
                      | (true, ts4) => (.ok retN, { st4 with toks := ts4 })
                else
                  let (retN, st3) := store st2 (fun i => .alloc i ak)
                  match Toks.accept .rparen st3.toks with
                  | (false, ts4) => (.error (.err "alloc missing rparen"),
                                     { st3 with toks := ts4 })
                  | (true, ts4) => (.ok retN, { st3 with toks := ts4 })
          else if isReserved iv then
            (.error (.err "reserved identifier in expression"),
             { st with toks := ts })
          else
            let st1 := { st with toks := (Toks.pop ts).2 }
            let (n, st2) := store st1 (fun i => .var i iv)
            (.ok n, st2)
        | .true' | .false' =>
          let st1 := { st with toks := (Toks.pop ts).2 }
          let (n, st2) :=
            store st1 (fun i => .boolLit i (this.kind = .true'))
          (.ok n, st2)
        | .null' =>
          let st1 := { st with toks := (Toks.pop ts).2 }
          let (n, st2) := store st1 (fun i => .nullLit i)
          (.ok n, st2)
        | .strLit =>
          let st1 := { st with toks := (Toks.pop ts).2 }
          let (n, st2) := store st1 (fun i => .strLit i this.value)
          (.ok n, st2)
        | .chrLit =>
          let st1 := { st with toks := (Toks.pop ts).2 }
          match this.value.data with
          | [] => (.error (.panicked "empty character literal"), st1)
          | c :: _ =>
            let (n, st2) := store st1 (fun i => .chrLit i c)
            (.ok n, st2)
        | _ => (.error (.err "invalid expression atom"),
                { st with toks := ts })

/-- `Parser.exprparse`: parse an atom, then run the precedence-climbing
loop (the pre-loop `op := toks.Peek()` of the source only discards
leading comments, which the first `Peek` of the loop repeats). -/
def exprParse : Nat → PState → Nat → Except PErr GoNode × PState
  | 0, st, _ => (.error .fuel, st)
  | fuel+1, st, minprec =>
    match exprAtom fuel st with
    | (.error e, st1) => (.error e, st1)
    | (.ok lhs, st1) => exprLoop fuel st1 lhs minprec

/-- the `for { ... }` loop of `Parser.exprparse`: subscripts and calls
are maximally greedy postfix operators, everything else is vanilla
precedence climbing. -/
def exprLoop : Nat → PState → GoNode → Nat → Except PErr GoNode × PState
  | 0, st, _, _ => (.error .fuel, st)
  | fuel+1, st, lhs, minprec =>
    match Toks.peek st.toks with
    | (none, ts) => (.ok lhs, { st with toks := ts })
    | (some op, ts) =>
      match tokToBinop op.kind with
      | none => (.ok lhs, { st with toks := ts })
      | some binop =>
        match op.kind with
        | .lbrack =>
          -- array subscript
          let st1 := { st with toks := (Toks.pop ts).2 }
          match exprParse fuel st1 0 with
          | (.error _, st2) => (.error (.err "invalid function argument"),
                                st2)
          | (.ok index, st2) =>
            match Toks.accept .rbrack st2.toks with
            | (false, ts2) => (.error (.err "unbalanced array subscript"),
                               { st2 with toks := ts2 })
            | (true, ts2) =>
              let (lhs2, st3) := store { st2 with toks := ts2 }
                (fun i => .opBinary i binop lhs index)
              exprLoop fuel st3 lhs2 minprec
        | .lparen =>
          -- function call; the `&node.Args{...}` value is built without
          -- `node.Store`, so it carries the invalid id 0
          let st1 := { st with toks := (Toks.pop ts).2 }
          match Toks.accept .rparen st1.toks with
          | (true, ts2) =>
            let (lhs2, st2) := store { st1 with toks := ts2 }
              (fun i => .opBinary i binop lhs (.args 0 []))
            exprLoop fuel st2 lhs2 minprec
          | (false, ts2) =>
            match exprArgs fuel { st1 with toks := ts2 } [] with
            | (.error e, st2) => (.error e, st2)
            | (.ok cc, st2) =>
              let (lhs2, st3) := store st2
                (fun i => .opBinary i binop lhs (.args 0 cc))
              exprLoop fuel st3 lhs2 minprec
        | _ =>
          match precedenceb op.kind with
          | none => (.error (.panicked "invalid binary operator"),
                     { st with toks := ts })
          | some prec =>
            if prec < minprec then (.ok lhs, { st with toks := ts })
            else
              let nextminprec :=
                if isleftassocb op.kind then prec + 1 else prec
              let st1 := { st with toks := (Toks.pop ts).2 }
              match exprParse fuel st1 nextminprec with
              | (.error e, st2) => (.error e, st2)
              | (.ok rhs, st2) =>
                let (lhs2, st3) :=
                  store st2 (fun i => .opBinary i binop lhs rhs)
                exprLoop fuel st3 lhs2 minprec

/-- the argument loop of the function-call case of `Parser.exprparse`
(`for toks.Peek() != nil { ... }`). -/
def exprArgs : Nat → PState → List GoNode →
    Except PErr (List GoNode) × PState
  | 0, st, _ => (.error .fuel, st)
  | fuel+1, st, acc =>
    match Toks.peek st.toks with
    | (none, ts) => (.ok acc, { st with toks := ts })
    | (some _, ts) =>
      match exprParse fuel { st with toks := ts } 0 with
      | (.error _, st1) => (.error (.err "invalid function argument"), st1)
      | (.ok arg, st1) =>
        let acc2 := acc ++ [arg]
        match Toks.accept .comma st1.toks with
        | (true, ts2) => exprArgs fuel { st1 with toks := ts2 } acc2
        | (false, ts2) =>
          match Toks.accept .rparen ts2 with
          | (true, ts3) => (.ok acc2, { st1 with toks := ts3 })
          | (false, ts3) =>
            (.error (.err "unbalanced parentheses in function call"),
             { st1 with toks := ts3 })

/-- `Parser.Expr` -/
def exprP : Nat → PState → Except PErr GoNode × PState
  | 0, st => (.error .fuel, st)
  | fuel+1, st => exprParse fuel st 0

/-- `Parser.SimpleStmt`: an expression (optionally completed into an
assignment or a suffix operation), or a variable declaration with an
optional initialiser; the expression error is preferred when both parses
fail. -/
def simpleStmt : Nat → PState → Except PErr GoNode × PState
  | 0, st => (.error .fuel, st)
  | fuel+1, st =>
    match Toks.peek st.toks with
    | (none, ts) => (.error .eot, { st with toks := ts })
    | (some _, ts) =>
      match exprP fuel { st with toks := ts } with
      | (.ok lv, st1) =>
        match Toks.peek st1.toks with
        | (none, ts1) => (.ok lv, { st1 with toks := ts1 })
        | (some next, ts1) =>
          match tokToAsnop next.kind with
          | some ak =>
            let st2 := { st1 with toks := (Toks.pop ts1).2 }
            match exprP fuel st2 with
            | (.error _, st3) => (.error (.err "invalid rvalue"), st3)
            | (.ok rv, st3) =>
              let (n, st4) :=
                store st3 (fun i => .opAssign i ak lv (some rv))
              (.ok n, st4)
          | none =>
            match tokToStmtSuffix next.kind with
            | some sk =>
              let st2 := { st1 with toks := (Toks.pop ts1).2 }
              let (n, st3) := store st2 (fun i => .opUnary i sk lv)
              (.ok n, st3)
            | none => (.ok lv, { st1 with toks := ts1 })
      | (.error exprerr, st1) =>
        match varDeclP st1 with
        | (.ok vd, st2) =>
          match Toks.peek st2.toks with
          | (some next, ts2) =>
            if next.kind = .assign then
              let st3 := { st2 with toks := (Toks.pop ts2).2 }
              match exprP fuel st3 with
              | (.error _, st4) =>
                (.error (.err "erroneous variable assignment"), st4)
              | (.ok av, st4) =>
                let (n, st5) :=
                  store st4 (fun i => .opAssign i .plain vd (some av))
                (.ok n, st5)
            else
              let (n, st3) := store { st2 with toks := ts2 }
                (fun i => .opAssign i .plain vd none)
              (.ok n, st3)
          | (none, ts2) =>
            let (n, st3) := store { st2 with toks := ts2 }
              (fun i => .opAssign i .plain vd none)
            (.ok n, st3)
        | (.error _, st2) => (.error exprerr, st2)

/-- `Parser.Stmt`: try a block first, then dispatch on the value of the
peeked token (over the state the failed block attempt left behind, as in
the source). -/
def stmt : Nat → PState → Except PErr GoNode × PState
  | 0, st => (.error .fuel, st)
  | fuel+1, st =>
    match Toks.peek st.toks with
    | (none, ts) => (.error .eot, { st with toks := ts })
    | (some first, ts) =>
      match blockP fuel { st with toks := ts } with
      | (.ok b, st1) => (.ok b, st1)
      | (.error _, st1) =>
        if first.value = "if" then
          let st2 := { st1 with toks := (Toks.pop st1.toks).2 }
          match Toks.accept .lparen st2.toks with
          | (false, ts2) => (.error (.err "if condition missing lparen"),
                             { st2 with toks := ts2 })
          | (true, ts2) =>
            match exprP fuel { st2 with toks := ts2 } with
            | (.error e, st3) => (.error e, st3)
            | (.ok cond, st3) =>
              match Toks.accept .rparen st3.toks with
              | (false, ts3) =>
                (.error (.err "if condition missing rparen"),
                 { st3 with toks := ts3 })
              | (true, ts3) =>
                match stmt fuel { st3 with toks := ts3 } with
                | (.error e, st4) => (.error e, st4)
                | (.ok bodytrue, st4) =>
                  let (retN, st5) :=
                    store st4 (fun i => .ifStmt i cond bodytrue none)
                  match Toks.peek st5.toks with
                  | (none, ts5) => (.ok retN, { st5 with toks := ts5 })
                  | (some next, ts5) =>
                    if next.kind = .id ∧ next.value = "else" then
                      let st6 := { st5 with toks := (Toks.pop ts5).2 }
                      match stmt fuel st6 with
                      | (.error e, st7) => (.error e, st7)
                      | (.ok bodyfalse, st7) =>
                        (.ok (setIfFalse retN bodyfalse), st7)
                    else (.ok retN, { st5 with toks := ts5 })
        else if first.value = "while" then
          let st2 := { st1 with toks := (Toks.pop st1.toks).2 }
          match Toks.accept .lparen st2.toks with
          | (false, ts2) => (.error (.err "while condition missing lparen"),
                             { st2 with toks := ts2 })
          | (true, ts2) =>
            match exprP fuel { st2 with toks := ts2 } with
            | (.error e, st3) => (.error e, st3)
            | (.ok cond, st3) =>
              match Toks.accept .rparen st3.toks with
              | (false, ts3) =>
                (.error (.err "while condition missing rparen"),
                 { st3 with toks := ts3 })
              | (true, ts3) =>
                match stmt fuel { st3 with toks := ts3 } with
                | (.error e, st4) => (.error e, st4)
                | (.ok body, st4) =>
                  let (n, st5) :=
                    store st4 (fun i => .whileStmt i cond body)
                  (.ok n, st5)
        else if first.value = "for" then
          let st2 := { st1 with toks := (Toks.pop st1.toks).2 }
          match Toks.accept .lparen st2.toks with
          | (false, ts2) => (.error (.err "for missing lparen"),
                             { st2 with toks := ts2 })
          | (true, ts2) =>
            match simpleStmt fuel { st2 with toks := ts2 } with
            | (.error e, st3) => (.error e, st3)
            | (.ok finit, st3) =>
              match Toks.accept .semicolon st3.toks with
              | (false, ts3) =>
                (.error (.err "for missing semicolon after initializer"),
                 { st3 with toks := ts3 })
              | (true, ts3) =>
                match exprP fuel { st3 with toks := ts3 } with
                | (.error e, st4) => (.error e, st4)
                | (.ok cond, st4) =>
                  match Toks.accept .semicolon st4.toks with
                  | (false, ts4) =>
                    (.error (.err "for missing semicolon after condition"),
                     { st4 with toks := ts4 })
                  | (true, ts4) =>
                    match simpleStmt fuel { st4 with toks := ts4 } with
                    | (.error e, st5) => (.error e, st5)
                    | (.ok oneach, st5) =>
                      match Toks.accept .rparen st5.toks with
                      | (false, ts5) => (.error (.err "for missing rparen"),
                                         { st5 with toks := ts5 })
                      | (true, ts5) =>
                        match stmt fuel { st5 with toks := ts5 } with
                        | (.error e, st6) => (.error e, st6)
                        | (.ok body, st6) =>
                          let (n, st7) := store st6
                            (fun i => .forStmt i finit cond oneach body)
                          (.ok n, st7)
        else if first.value = "return" then
          let st2 := { st1 with toks := (Toks.pop st1.toks).2 }
          match Toks.accept .semicolon st2.toks with
          | (true, ts2) =>
            let (n, st3) :=
              store { st2 with toks := ts2 } (fun i => .ret i none)
            (.ok n, st3)
          | (false, ts2) =>
            match exprP fuel { st2 with toks := ts2 } with
            | (.error _, st3) =>
              (.error (.err "invalid return expression"), st3)
            | (.ok expr, st3) =>
              match Toks.accept .semicolon st3.toks with
              | (false, ts3) => (.error (.err "return missing semicolon"),
                                 { st3 with toks := ts3 })
              | (true, ts3) =>
                let (n, st4) := store { st3 with toks := ts3 }
                  (fun i => .ret i (some expr))
                (.ok n, st4)
        else if first.value = "assert" ∨ first.value = "error" then
          let st2 := { st1 with toks := (Toks.pop st1.toks).2 }
          match Toks.accept .lparen st2.toks with
          | (false, ts2) => (.error (.err "assert missing lparen"),
                             { st2 with toks := ts2 })
          | (true, ts2) =>
            match exprP fuel { st2 with toks := ts2 } with
            | (.error _, st3) => (.error (.err "invalid assert statement"),
                                  st3)
            | (.ok expr, st3) =>
              match Toks.accept .rparen st3.toks with
              | (false, ts3) =>
                (.error (.err "assert statement missing rparen"),
                 { st3 with toks := ts3 })
              | (true, ts3) =>
                match Toks.accept .semicolon ts3 with
                | (false, ts4) =>
                  (.error (.err "assert statement missing semicolon"),
                   { st3 with toks := ts4 })
                | (true, ts4) =>
                  let (n, st4) := store { st3 with toks := ts4 }
                    (fun i => if first.value = "assert" then .assert i expr
                              else .errorStmt i expr)
                  (.ok n, st4)
        else if first.value = "break" then
          let st2 := { st1 with toks := (Toks.pop st1.toks).2 }
          match Toks.accept .semicolon st2.toks with
          | (false, ts2) => (.error (.err "break statement missing semicolon"),
                             { st2 with toks := ts2 })
          | (true, ts2) =>
            let (n, st3) :=
              store { st2 with toks := ts2 } (fun i => .breakStmt i)
            (.ok n, st3)
        else if first.value = "continue" then
          let st2 := { st1 with toks := (Toks.pop st1.toks).2 }
          match Toks.accept .semicolon st2.toks with
          | (false, ts2) =>
            (.error (.err "continue statement missing semicolon"),
             { st2 with toks := ts2 })
          | (true, ts2) =>
            let (n, st3) :=
              store { st2 with toks := ts2 } (fun i => .continueStmt i)
            (.ok n, st3)
        else
          match simpleStmt fuel st1 with
          | (.ok ss, st2) =>
            match Toks.accept .semicolon st2.toks with
            | (false, ts2) => (.error (.err "statement missing semicolon"),
                               { st2 with toks := ts2 })
            | (true, ts2) => (.ok ss, { st2 with toks := ts2 })
          | (.error _, st2) => (.error (.err "not a simple statement"), st2)

/-- `Parser.Block`: `{`, the statement loop, `}`; a resynchronised
statement failure still fails the whole block. -/
def blockP : Nat → PState → Except PErr GoNode × PState
  | 0, st => (.error .fuel, st)
  | fuel+1, st =>
    match Toks.peek st.toks with
    | (none, ts) => (.error .eot, { st with toks := ts })
    | (some first, ts) =>
      if first.kind = .lcurly then
        let st1 := { st with toks := (Toks.pop ts).2 }
        match blockLoop fuel st1 [] false with
        | (.error e, st2) => (.error e, st2)
        | (.ok (stmts, inerror), st2) =>
          match Toks.accept .rcurly st2.toks with
          | (false, ts2) => (.error (.err "block not terminated"),
                             { st2 with toks := ts2 })
          | (true, ts2) =>
            if inerror then
              (.error (.err "block contained errors"),
               { st2 with toks := ts2 })
            else
              -- when `inerror` is false every collected entry is `some`
              let (n, st3) := store { st2 with toks := ts2 }
                (fun i => .block i (stmts.reduceOption))
              (.ok n, st3)
      else (.error (.err "not a block"), { st with toks := ts })

/-- the statement loop of `Parser.Block`: stop at `}` or end of input;
on a statement error remember the failure, resynchronise by popping up
to and including the next `;` or `}`, and keep going.  The loop appends
the `Stmt` result even when it is nil, hence `Option GoNode` entries. -/
def blockLoop : Nat → PState → List (Option GoNode) → Bool →
    Except PErr (List (Option GoNode) × Bool) × PState
  | 0, st, _, _ => (.error .fuel, st)
  | fuel+1, st, acc, inerror =>
    match Toks.peek st.toks with
    | (none, ts) => (.ok (acc, inerror), { st with toks := ts })
    | (some t, ts) =>
      if t.kind = .rcurly then (.ok (acc, inerror), { st with toks := ts })
      else
        match stmt fuel { st with toks := ts } with
        | (.ok s, st1) => blockLoop fuel st1 (acc ++ [some s]) inerror
        | (.error _, st1) =>
          let (_, ts2) := Toks.find [.semicolon, .rcurly] st1.toks
          let ts3 := (Toks.pop ts2).2
          blockLoop fuel { st1 with toks := ts3 } (acc ++ [none]) true

end

/-! ## CFG builder (Go package `cfg`)

Basic blocks are pointer-linked and mutable in Go; here a `CfgState`
carries an id-indexed block table together with the two global id
counters.  `blockEntry`/`blockExit` are the fixed ids 0 and 1. -/

abbrev BlockId := Nat

inductive BranchKind where
  | invalid | iftrue | iffalse | ifnoelse | whiletrue | whilefalse
  | fortrue | forfalse | always
deriving DecidableEq, Repr

/-- `cfg.Branch` (the originating block is the block holding the edge;
`Kind` bundles the discriminator and the originating node). -/
structure BranchData where
  id : Nat
  kind : BranchKind
  node : Option GoNode
  to' : BlockId

/-- `cfg.BasicBlock` sans its id (blocks live in an id-indexed table). -/
structure BlockData where
  stmts : List GoNode := []
  succs : List BranchData := []

def BLOCKID_ENTRY : BlockId := 0
def BLOCKID_EXIT : BlockId := 1

structure CfgState where
  blocks : BlockId → BlockData
  blockid : Nat
  branchid : Nat

/-- `cfg.branchParent`; a `none` target stands for the `nil` pointer that
`newsucc` replaces with `blockExit`. -/
structure BranchParent where
  to' : Option BlockId
  node : Option GoNode
  how : BranchKind

/-- `cfg.branchLoop`, defunctionalised: the two closures built in
`newloop` only ever add an ALWAYS edge to the captured after-loop block
(`onBreak`) or step block (`onContinue`) for the captured node. -/
structure BranchLoop where
  afterloop : BlockId
  sb : BlockId
  node : Option GoNode

def updBlock (sg : CfgState) (b : BlockId) (f : BlockData → BlockData) :
    CfgState :=
  { sg with blocks := fun i => if i = b then f (sg.blocks i) else sg.blocks i }

/-- `(*BasicBlock).newstmt` -/
def newstmt (sg : CfgState) (b : BlockId) (n : GoNode) : CfgState :=
  updBlock sg b (fun d => { d with stmts := d.stmts ++ [n] })

/-- `(*BasicBlock).newsucc` -/
def newsucc (sg : CfgState) (b : BlockId) (rp : BranchParent) : CfgState :=
  let target := rp.to'.getD BLOCKID_EXIT
  let sg := { sg with branchid := sg.branchid + 1 }
  updBlock sg b (fun d =>
    { d with succs := d.succs ++ [⟨sg.branchid, rp.how, rp.node, target⟩] })

/-- `newblock`: bump the global block id; the table entry for a fresh id
is the empty block. -/
def newblock (sg : CfgState) : BlockId × CfgState :=
  (sg.blockid + 1, { sg with blockid := sg.blockid + 1 })

/-- `cfg.extractbody` (no body field of the embedded nodes is a Go `nil`,
so the panic branch has no counterpart). -/
def extractbody : GoNode → List GoNode
  | .block _ v => v
  | n => [n]

mutual

/-- `cfg.form`: grow basic block `b` over the statement list until a
branching construct appears.  The fuel only bounds the recursion depth;
`none` is either exhausted fuel or the Go panic for a `break`/`continue`
without a loop context. -/
def form : Nat → CfgState → BlockId → BranchParent → Option BranchLoop →
    List GoNode → Option CfgState
  | 0, _, _, _, _, _ => none
  | fuel+1, sg, b, rp, lp, left =>
    match left with
    | [] => some (newsucc sg b rp)
    | n :: rest =>
      match n with
      | .ifStmt _ _ vtrue vfalse =>
        newif fuel sg b n vtrue vfalse rp lp rest
      | .forStmt _ finit _ oneach body =>
        -- XXX Form new basic block for initializer?
        let sg := newstmt sg b finit
        newfor fuel sg b n body oneach rp rest
      | .whileStmt _ _ body =>
        newwhile fuel sg b n body rp rest
      | .ret _ _ =>
        let sg := newstmt sg b n
        some (newsucc sg b ⟨some BLOCKID_EXIT, some n, .always⟩)
      | .breakStmt _ =>
        match lp with
        | none => none  -- panic "missing loop params on break"
        | some l =>
          let sg := newsucc sg b ⟨some l.afterloop, l.node, .always⟩
          some (newstmt sg b n)
      | .continueStmt _ =>
        match lp with
        | none => none  -- panic "missing loop params on continue"
        | some l =>
          let sg := newsucc sg b ⟨some l.sb, l.node, .always⟩
          some (newstmt sg b n)
      | _ =>
        form fuel (newstmt sg b n) b rp lp rest

/-- `(*BasicBlock).newif` (`vtrue`/`vfalse` are the `True`/`False`
fields of the `If` node `n`). -/
def newif : Nat → CfgState → BlockId → GoNode → GoNode → Option GoNode →
    BranchParent → Option BranchLoop → List GoNode → Option CfgState
  | 0, _, _, _, _, _, _, _, _ => none
  | fuel+1, sg, b, n, vtrue, vfalse, rp, lp, left =>
    let (afterif, sg) := newblock sg
    match form fuel sg afterif ⟨rp.to', some n, .always⟩ lp left with
    | none => none
    | some sg =>
      let (tb, sg) := newblock sg
      match form fuel sg tb ⟨some afterif, some n, .always⟩ lp
          (extractbody vtrue) with
      | none => none
      | some sg =>
        let sg := newsucc sg b ⟨some tb, some n, .iftrue⟩
        match vfalse with
        | some fbody =>
          let (fb, sg) := newblock sg
          match form fuel sg fb ⟨some afterif, some n, .always⟩ lp
              (extractbody fbody) with
          | none => none
          | some sg => some (newsucc sg b ⟨some fb, some n, .iffalse⟩)
        | none => some (newsucc sg b ⟨some afterif, some n, .ifnoelse⟩)

/-- `(*BasicBlock).newwhile` -/
def newwhile : Nat → CfgState → BlockId → GoNode → GoNode → BranchParent →
    List GoNode → Option CfgState
  | 0, _, _, _, _, _, _ => none
  | fuel+1, sg, b, n, body, rp, left =>
    newloop fuel sg b n (extractbody body) .whiletrue .whilefalse rp left
      none

/-- `(*BasicBlock).newfor` -/
def newfor : Nat → CfgState → BlockId → GoNode → GoNode → GoNode →
    BranchParent → List GoNode → Option CfgState
  | 0, _, _, _, _, _, _, _ => none
  | fuel+1, sg, b, n, body, oneach, rp, left =>
    newloop fuel sg b n (extractbody body) .fortrue .forfalse rp left
      (some oneach)

/-- `(*BasicBlock).newloop` -/
def newloop : Nat → CfgState → BlockId → GoNode → List GoNode →
    BranchKind → BranchKind → BranchParent → List GoNode →
    Option GoNode → Option CfgState
  | 0, _, _, _, _, _, _, _, _, _ => none
  | fuel+1, sg, b, n, body, kt, kf, rp, left, step =>
    let (afterloop, sg) := newblock sg
    match form fuel sg afterloop rp none left with
    | none => none
    | some sg =>
      -- lb is the loop body itself
      let (lb, sg) := newblock sg
      -- sb marks the end of the loop body (the for step's place)
      let (sb, sg) := newblock sg
      let ss : List GoNode := match step with | none => [] | some s => [s]
      -- the step body has a true-edge back to the loop body
      match form fuel sg sb ⟨some lb, some n, kt⟩ none ss with
      | none => none
      | some sg =>
        -- break/continue in the loop: immediate ALWAYS edges to the
        -- post-loop block resp. the loop start
        let lp : BranchLoop := ⟨afterloop, sb, some n⟩
        -- the loop body unconditionally connects to the step body
        match form fuel sg lb ⟨some sb, some n, .always⟩ (some lp) body with
        | none => none
        | some sg =>
          -- conditional false-edge after the step body
          let sg := newsucc sg sb ⟨some afterloop, some n, kf⟩
          -- conditional true-edge entering the loop
          let sg := newsucc sg b ⟨some lb, some n, kt⟩
          -- conditional false-edge over the loop
          some (newsucc sg b ⟨some afterloop, some n, kf⟩)

end

/-- `cfg.Form`: the fixed ENTRY block, an ALWAYS edge to a fresh `second`
block, and formation of the body with `blockExit` as branch parent.  The
two global id counters start at `BLOCKID_EXIT` and `0` respectively. -/
def FormCfg (fuel : Nat) (fd : FunDef) : Option CfgState :=
  let sg0 : CfgState := ⟨fun _ => {}, BLOCKID_EXIT, 0⟩
  let (second, sg) := newblock sg0
  let sg := newsucc sg BLOCKID_ENTRY ⟨some second, none, .always⟩
  form fuel sg second ⟨some BLOCKID_EXIT, none, .always⟩ none fd.body

/-- A statement that `cfg.form` handles in its default arm: it is appended
to the current block and formation continues (no branching, no transfer). -/
def PlainStmt : GoNode → Bool
  | .ifStmt _ _ _ _ => false
  | .forStmt _ _ _ _ _ => false
  | .whileStmt _ _ _ => false
  | .ret _ _ => false
  | .breakStmt _ => false
  | .continueStmt _ => false
  | _ => true

/-- appending a run of statements to one block, as `form` does for a run
of plain statements. -/
def appendStmts (sg : CfgState) (b : BlockId) (l : List GoNode) : CfgState :=
  l.foldl (fun s x => newstmt s b x) sg

/-! ## IR (Go package `ir`) and SSA generation (Go package `ssa`) -/

/-- `ir.Type`; the only kind ever constructed is `TYPE_INT32 = 0`. -/
structure IrType where
  kind : Nat
  pointerLevel : Nat
  elements : Nat
deriving DecidableEq, Repr

/-- `ssa`'s `typeInt` -/
def irTypeInt : IrType := ⟨0, 0, 0⟩

/-- `ir.Variable`: a virtual register; an empty name means an anonymous
temporary. -/
structure IrVar where
  name : String
  count : Nat
deriving DecidableEq, Repr

/-- `ir.Value`: a register or a `Numeric32i` constant. -/
inductive IrValue where
  | var (v : IrVar)
  | num (value : Int)
deriving DecidableEq, Repr

inductive Instr where
  | load (type' : IrType) (to' from' : IrVar)
  | store (type' : IrType) (to' from' : IrVar)
  | add (type' : IrType) (to' : IrVar) (left right : IrValue)
  | mul (type' : IrType) (to' : IrVar) (left right : IrValue)
  | xor (type' : IrType) (to' : IrVar) (left right : IrValue)
  | mov (type' : IrType) (to' : IrVar) (what : IrValue)
  | ret (type' : IrType) (with' : IrValue)
  | alloca (type' : IrType) (align : Nat) (to' : IrVar)
  | label (name : String)
deriving DecidableEq, Repr

/-- association-list update used for the `generations` map. -/
def setAssoc : List (String × Nat) → String → Nat → List (String × Nat)
  | [], k, v => [(k, v)]
  | (k', v') :: rest, k, v =>
    if k' = k then (k, v) :: rest else (k', v') :: setAssoc rest k v

/-- `generations.increase`: a fresh name starts at generation 0,
an existing one is bumped. -/
def genIncrease (g : List (String × Nat)) (name : String) :
    Nat × List (String × Nat) :=
  match g.lookup name with
  | none => (0, setAssoc g name 0)
  | some v => (v + 1, setAssoc g name (v + 1))

/-- `generations.get`; an unknown name panics in Go (`none`). -/
def genGet (g : List (String × Nat)) (name : String) : Option Nat :=
  g.lookup name

/-- `ssa.SSA`: the anonymous-register counter, the per-name generation
map and the append-only instruction list. -/
structure SsaState where
  reggen : Nat
  generations : List (String × Nat)
  instructions : List Instr

/-- `(*SSA).emit` -/
def ssaEmit (s : SsaState) (i : Instr) : SsaState :=
  { s with instructions := s.instructions ++ [i] }

/-- `(*SSA).registerNew`: bump the counter, then `register`. -/
def registerNew (s : SsaState) : IrVar × SsaState :=
  (⟨"", s.reggen + 1⟩, { s with reggen := s.reggen + 1 })

/-- `(*SSA).register`: the anonymous register of the current counter. -/
def register (s : SsaState) : IrVar :=
  ⟨"", s.reggen⟩

/-- `(*SSA).getNewVariable`: a fresh generation of `name`, with its
`ALLOCA`. -/
def getNewVariable (s : SsaState) (name : String) : IrVar × SsaState :=
  let (c, g) := genIncrease s.generations name
  let v : IrVar := ⟨name, c⟩
  (v, ssaEmit { s with generations := g } (.alloca irTypeInt 4 v))

/-- `(*SSA).getCurrentVariable`; `none` is the panic on an unknown
generation. -/
def getCurrentVariable (s : SsaState) (name : String) : Option IrVar :=
  (genGet s.generations name).map (⟨name, ·⟩)

/-- `(*SSA).getNewStorable`: a `Variable` store target re-uses the
current generation, a `VarDecl` target creates a new one; any other
node panics. -/
def getNewStorable (s : SsaState) : GoNode → Option (IrVar × SsaState)
  | .var _ v => (getCurrentVariable s v).map (fun x => (x, s))
  | .varDecl _ _ nm => some (getNewVariable s nm)
  | _ => none

/-- `(*SSA).emitLoadable`, with `getNumeric32i` and `emitOpBinary`
inlined at their only call sites.  Each Go case returns `s.register()`,
the register of the most recent `registerNew`; an unhandled node is the
"unhandled assignment source" panic.  A binary operator other than
ADD/MUL prints an "XXX UNHANDLED" line and emits nothing. -/
def emitExpr (s : SsaState) : GoNode → Option (IrVar × SsaState)
  | .var _ v =>
    match getCurrentVariable s v with
    | none => none
    | some fromv =>
      let (to1, s) := registerNew s
      let s := ssaEmit s (.load irTypeInt to1 fromv)
      some (register s, s)
  | .varDecl _ _ nm =>
    let (fromv, s) := getNewVariable s nm
    let (to1, s) := registerNew s
    let s := ssaEmit s (.load irTypeInt to1 fromv)
    some (register s, s)
  | .numeric _ v _ =>
    -- getNumeric32i
    let (to1, s) := registerNew s
    let s := ssaEmit s (.mov irTypeInt to1 (.num v))
    some (register s, s)
  | .opBinary _ op l r =>
    -- emitOpBinary
    match emitExpr s l with
    | none => none
    | some (left, s) =>
      match emitExpr s r with
      | none => none
      | some (right, s) =>
        let (to1, s) := registerNew s
        let s :=
          match op with
          | .add => ssaEmit s (.add irTypeInt to1 (.var left) (.var right))
          | .mul => ssaEmit s (.mul irTypeInt to1 (.var left) (.var right))
          | _ => s
        some (register s, s)
  | _ => none

/-- `(*SSA).emitNode`, with `emitAssign`, `emitOpUnary` and `emitReturn`
inlined.  An unhandled statement node panics. -/
def emitStmt (s : SsaState) : GoNode → Option SsaState
  | .opAssign _ _ target what =>
    -- emitAssign: "each assignment means a new variable generation"
    match getNewStorable s target with
    | none => none
    | some (tov, s) =>
      match what with
      | none => none  -- emitLoadable(nil) hits its panic default
      | some w =>
        match emitExpr s w with
        | none => none
        | some (fromv, s) => some (ssaEmit s (.store irTypeInt tov fromv))
  | .opBinary i op l r => (emitExpr s (.opBinary i op l r)).map (·.2)
  | .opUnary _ _ operand =>
    -- emitOpUnary: recurse, then the op switch only has the unhandled
    -- default (prints, emits nothing)
    emitStmt s operand
  | .ret _ expr =>
    -- emitReturn
    match expr with
    | none => none
    | some e =>
      match emitExpr s e with
      | none => none
      | some (withv, s) => some (ssaEmit s (.ret irTypeInt (.var withv)))
  | _ => none

/-- the statement loop of `(*SSA).emitBlock`. -/
def emitStmts (s : SsaState) : List GoNode → Option SsaState
  | [] => some s
  | n :: ns =>
    match emitStmt s n with
    | none => none
    | some s2 => emitStmts s2 ns

mutual
/-- `(*SSA).emitBlock`: emit the block's statements, then recurse into
every successor (naive DFS, no revisit memoization — fuel bounds the
recursion on a cyclic CFG). -/
def emitBlock (blocks : BlockId → BlockData) : Nat → BlockId →
    SsaState → Option SsaState
  | 0, _, _ => none
  | fuel+1, b, s =>
    match emitStmts s (blocks b).stmts with
    | none => none
    | some s2 => emitSuccs blocks fuel (blocks b).succs s2

def emitSuccs (blocks : BlockId → BlockData) : Nat → List BranchData →
    SsaState → Option SsaState
  | 0, _, _ => none
  | fuel+1, succs, s =>
    match succs with
    | [] => some s
    | br :: rest =>
      match emitBlock blocks fuel br.to' s with
      | none => none
      | some s2 => emitSuccs blocks fuel rest s2
end

/-- `(*SSA).build` (via `ssa.New`): label `entry:`, then emit starting
from the CFG's first block (ENTRY). -/
def ssaBuild (fuel : Nat) (sg : CfgState) : Option SsaState :=
  let s : SsaState := ⟨0, [], []⟩
  let s := ssaEmit s (.label "entry")
  emitBlock sg.blocks fuel BLOCKID_ENTRY s

/-! ## IR interpreter (Go package `ssa/vm`)

The register file is a map with zero default (Go map of `int32`), memory
is the growable cell slice.  `int32` arithmetic wraps. -/

/-- two's-complement wrap to signed 32 bits. -/
def wrap32 (z : Int) : Int := (z + 2 ^ 31) % 2 ^ 32 - 2 ^ 31

/-- `int32` bitwise xor via the unsigned bit patterns. -/
def xor32 (a b : Int) : Int :=
  wrap32 (Int.ofNat (Nat.xor (a % 2 ^ 32).toNat (b % 2 ^ 32).toNat))

structure VmState where
  regs : IrVar → Int
  mem : List Int
  ret : Int

def vmSet (s : VmState) (target : IrVar) (v : Int) : VmState :=
  { s with regs := fun r => if r = target then v else s.regs r }

/-- `(*VM).ExtractValue` (also the body of `(*VM).Set`). -/
def extractValue (s : VmState) : IrValue → Int
  | .var v => s.regs v
  | .num v => v

/-- One iteration of the instruction switch in `(*VM).Run`; `none` is a
panic (out-of-range memory access).  The `break` in the RET case only
leaves the Go `switch`, so execution continues afterwards. -/
def vmStep (s : VmState) : Instr → Option VmState
  | .alloca _ _ target =>
    -- vm.Alloca appends a zeroed cell and returns its index
    some { vmSet s target (Int.ofNat s.mem.length) with mem := s.mem ++ [0] }
  | .mov _ target what => some (vmSet s target (extractValue s what))
  | .store _ target fromv =>
    -- vm.Store: mem[regs[to]] = regs[from]
    let ptr := s.regs target
    if 0 ≤ ptr ∧ ptr.toNat < s.mem.length then
      some { s with mem := s.mem.set ptr.toNat (s.regs fromv) }
    else none
  | .load _ target fromv =>
    -- vm.Load: regs[to] = mem[regs[from]]
    let fi := s.regs fromv
    if 0 ≤ fi ∧ fi.toNat < s.mem.length then
      some (vmSet s target (s.mem.getD fi.toNat 0))
    else none
  | .add _ target l r =>
    some (vmSet s target (wrap32 (extractValue s l + extractValue s r)))
  | .mul _ target l r =>
    some (vmSet s target (wrap32 (extractValue s l * extractValue s r)))
  | .xor _ target l r =>
    some (vmSet s target (xor32 (extractValue s l) (extractValue s r)))
  | .ret _ w => some { s with ret := extractValue s w }
  | .label _ => some s

def vmRunLoop (s : VmState) : List Instr → Option Int
  | [] => some s.ret
  | i :: rest =>
    match vmStep s i with
    | none => none
    | some s2 => vmRunLoop s2 rest

/-- `(*VM).Run` for a single inserted function: execute its instruction
list linearly and report the last `RET` value (initially zero). -/
def vmRun (instrs : List Instr) : Option Int :=
  vmRunLoop ⟨fun _ => 0, [], 0⟩ instrs

/-! ## Analyzer: the equality-operator check (Go `analyze/scope.go`,
`checkEq`) -/

/-- the two analyzer diagnostics `checkEq` can raise. -/
inductive AErr where
  /-- `ErrCompareBadType` -/
  | compareBadType
  /-- `ErrCompareTypes` -/
  | compareTypes
deriving DecidableEq, Repr

/-- the analyzer's `typeBool` -/
def tyBool : Ty := .mk .bool 0 0 none
/-- the analyzer's `typeInt` -/
def tyInt : Ty := .mk .int 0 0 none
/-- the analyzer's `typeChar` -/
def tyChar : Ty := .mk .char 0 0 none

/-- the operand-validity closure `v` inside `checkEq`: matches int, bool
or char, or is an array of anything.  (Matching against these atomic
types never panics, so the `Option` collapses to a boolean.) -/
def eqOperandOk (k : Ty) : Bool :=
  Ty.Matches k tyInt == some true || Ty.Matches k tyBool == some true ||
  Ty.Matches k tyChar == some true || decide (0 < k.arrayLevel)

/-- `(*Analyzer).checkEq`, as a function from the operand types (the
`getType` results for the two children, `none` = `nil`) to the type
assigned to the node and the diagnostics raised, in order.  The node
type is set to `bool` before anything else, and missing operand types
return early.  The overall `none` is the panic case of
`kl.Matches(kr)`. -/
def checkEq (kl kr : Option Ty) : Option (Ty × List AErr) :=
  match kl, kr with
  | some kl, some kr =>
    let errs1 : List AErr :=
      if ¬ (eqOperandOk kl ∧ eqOperandOk kr) then [.compareBadType] else []
    match Ty.Matches kl kr with
    | none => none
    | some b =>
      let errs2 : List AErr := if ¬ b then [.compareTypes] else []
      some (tyBool, errs1 ++ errs2)
  | _, _ => some (tyBool, [])

/-! ## Analyzer: ternary-pair bookkeeping (Go `analyze/scope.go` and the
traversal in `(*Analyzer).check`) -/

/-- the node id carried in every node's `Common` header. -/
def nodeId : GoNode → Nat
  | .var i _ => i
  | .numeric i _ _ => i
  | .strLit i _ => i
  | .chrLit i _ => i
  | .boolLit i _ => i
  | .nullLit i => i
  | .opUnary i _ _ => i
  | .opBinary i _ _ _ => i
  | .opAssign i _ _ _ => i
  | .varDecl i _ _ => i
  | .block i _ => i
  | .ifStmt i _ _ _ => i
  | .forStmt i _ _ _ _ => i
  | .whileStmt i _ _ => i
  | .ret i _ => i
  | .breakStmt i => i
  | .continueStmt i => i
  | .assert i _ => i
  | .errorStmt i _ => i
  | .cast i _ _ => i
  | .alloc i _ => i
  | .allocArray i _ _ => i
  | .args i _ => i
  | .kindNode i _ => i

mutual
/-- all node ids of a tree, in pre-order (a helper for stating the
uniqueness hypotheses; not a source function). -/
def nodeIds : GoNode → List Nat
  | .var i _ => [i]
  | .numeric i _ _ => [i]
  | .strLit i _ => [i]
  | .chrLit i _ => [i]
  | .boolLit i _ => [i]
  | .nullLit i => [i]
  | .opUnary i _ operand => i :: nodeIds operand
  | .opBinary i _ l r => i :: (nodeIds l ++ nodeIds r)
  | .opAssign i _ target what =>
    i :: (nodeIds target ++ nodeIdsOpt what)
  | .varDecl i _ _ => [i]
  | .block i vs => i :: nodeIdsList vs
  | .ifStmt i cond vtrue vfalse =>
    i :: (nodeIds cond ++ nodeIds vtrue ++ nodeIdsOpt vfalse)
  | .forStmt i finit cond oneach body =>
    i :: (nodeIds finit ++ nodeIds cond ++ nodeIds oneach ++ nodeIds body)
  | .whileStmt i cond body => i :: (nodeIds cond ++ nodeIds body)
  | .ret i e => i :: nodeIdsOpt e
  | .breakStmt i => [i]
  | .continueStmt i => [i]
  | .assert i e => i :: nodeIds e
  | .errorStmt i e => i :: nodeIds e
  | .cast i _ w => i :: nodeIds w
  | .alloc i _ => [i]
  | .allocArray i _ e => i :: nodeIds e
  | .args i vs => i :: nodeIdsList vs
  | .kindNode i _ => [i]

def nodeIdsOpt : Option GoNode → List Nat
  | none => []
  | some n => nodeIds n

def nodeIdsList : List GoNode → List Nat
  | [] => []
  | n :: ns => nodeIds n ++ nodeIdsList ns
end

/-- `ternaryvals` entries: ':'-node id ↦ seen count.  (The Go map stores
`ternaryCheck{n, seen}`; the node pointer is only used to place the
diagnostic.) -/
abbrev TernMap := List (Nat × Nat)

/-- insert-or-replace on the `ternaryvals` map. -/
def setTern : TernMap → Nat → Nat → TernMap
  | [], k, v => [(k, v)]
  | (k', v') :: rest, k, v =>
    if k' = k then (k, v) :: rest else (k', v') :: setTern rest k v

/-- `(*Analyzer).MarkTernaryVal`: a freshly met ':' node gets count 1. -/
def markTernaryVal (m : TernMap) (tvId : Nat) : TernMap := setTern m tvId 1

/-- `(*Analyzer).checkTernaryCond` for a '?' node with children `l`,`r`,
restricted to its effect on the `ternaryvals` map (the diagnostics it
may raise do not touch the map): an untyped condition returns early, as
does a right child that is not a ':' node or has no map entry;
otherwise the entry's count is incremented.  `hasType i` abstracts
`s.getType(n) != nil`, whether the analysis recorded a type for node
id `i`. -/
def checkTernaryCond (hasType : Nat → Bool) (m : TernMap) (l r : GoNode) :
    TernMap :=
  if ¬ hasType (nodeId l) then m
  else
    match r with
    | .opBinary rid .ternaryvals _ _ =>
      match m.lookup rid with
      | none => m
      | some c => setTern m rid (c + 1)
    | _ => m

mutual
/-- the depth-first traversal `(*Analyzer).check`, restricted to its
effect on the `ternaryvals` map.  The child order is the source's:
`OpAssign` visits `What` before `To`; a `STRUCTDEC`/`STRUCTPTRDEC`
binary does not visit its right child; `If` visits cond, then the true
branch, then the false branch; loops visit their parts in field order.
Only `OpBinary` nodes touch the map.  `none` models the `panic` in the
`*node.Error` case of `check`.  The `getType` table consulted by
`checkTernaryCond` is abstracted by `hasType`. -/
def checkTern (hasType : Nat → Bool) : GoNode → TernMap → Option TernMap
  | .opUnary _ _ operand, m => checkTern hasType operand m
  | .opBinary i op l r, m =>
    match checkTern hasType l m with
    | none => none
    | some m =>
      match op with
      | .structdec | .structptrdec => some m
      | _ =>
        match checkTern hasType r m with
        | none => none
        | some m =>
          -- checkBinary
          match op with
          | .ternarycond => some (checkTernaryCond hasType m l r)
          | .ternaryvals => some (markTernaryVal m i)
          | _ => some m
  | .opAssign _ _ target what, m =>
    match checkTernOpt hasType what m with
    | none => none
    | some m => checkTern hasType target m
  | .block _ vs, m => checkTernList hasType vs m
  | .args _ vs, m => checkTernList hasType vs m
  | .ifStmt _ cond vtrue vfalse, m =>
    match checkTern hasType cond m with
    | none => none
    | some m =>
      match checkTern hasType vtrue m with
      | none => none
      | some m => checkTernOpt hasType vfalse m
  | .forStmt _ finit cond oneach body, m =>
    match checkTern hasType finit m with
    | none => none
    | some m =>
      match checkTern hasType cond m with
      | none => none
      | some m =>
        match checkTern hasType oneach m with
        | none => none
        | some m => checkTern hasType body m
  | .whileStmt _ cond body, m =>
    match checkTern hasType cond m with
    | none => none
    | some m => checkTern hasType body m
  | .ret _ e, m => checkTernOpt hasType e m
  | .assert _ e, m => checkTern hasType e m
  | .errorStmt _ e, m =>
    -- `case *node.Error: a(t.Expr); panic("implement error check")`
    match checkTern hasType e m with
    | _ => none
  | .cast _ _ w, m => checkTern hasType w m
  | .allocArray _ _ e, m => checkTern hasType e m
  | _, m => some m

/-- `check(nil)` is a no-action case. -/
def checkTernOpt (hasType : Nat → Bool) : Option GoNode → TernMap →
    Option TernMap
  | none, m => some m
  | some n, m => checkTern hasType n m

def checkTernList (hasType : Nat → Bool) : List GoNode → TernMap →
    Option TernMap
  | [], m => some m
  | n :: ns, m =>
    match checkTern hasType n m with
    | none => none
    | some m2 => checkTernList hasType ns m2
end

/-- `(*Analyzer).checkTernaries`: every entry whose count is not 2 is
reported (`ErrTernaryMissingCond`); the result is the list of reported
':'-node ids. -/
def checkTernaries (m : TernMap) : List Nat :=
  (m.filter (fun e => e.2 ≠ 2)).map (·.1)

/-- the AST of `{ int a = 1; a = 2; return a; }` (ids as the parser's
`node.Store` assigns them in construction order). -/
def c1body : List GoNode :=
  [.opAssign 4 .plain (.varDecl 2 ⟨.int, 0, 0, ""⟩ "a")
     (some (.numeric 3 1 10)),
   .opAssign 7 .plain (.var 5 "a") (some (.numeric 6 2 10)),
   .ret 10 (some (.var 9 "a"))]

/-- the generation counters of the STORE targets named `a`, in emission
order, for the IR of `int f(){ int a=1; a=2; return a; }`. -/
def c1stores : Option (List Nat) :=
  match FormCfg 10 ⟨"f", ⟨.int, 0, 0, ""⟩, [], c1body⟩ with
  | none => none
  | some sg =>
    (ssaBuild 10 sg).map (fun ss =>
      ss.instructions.filterMap (fun i =>
        match i with
        | .store _ t _ => if t.name = "a" then some t.count else none
        | _ => none))

/-- the token stream of the body of
`int f(){ int a=1; int b=a+3; a=a*2+b; return a+1; }` (the pipeline of
the claim starts at the parser; tokens carry kind and lexeme). -/
def c2toks : Toks :=
  [⟨.lcurly, "\x7b"⟩,
   ⟨.id, "int"⟩, ⟨.id, "a"⟩, ⟨.assign, "="⟩, ⟨.decNum, "1"⟩,
   ⟨.semicolon, ";"⟩,
   ⟨.id, "int"⟩, ⟨.id, "b"⟩, ⟨.assign, "="⟩, ⟨.id, "a"⟩, ⟨.plus, "+"⟩,
   ⟨.decNum, "3"⟩, ⟨.semicolon, ";"⟩,
   ⟨.id, "a"⟩, ⟨.assign, "="⟩, ⟨.id, "a"⟩, ⟨.star, "*"⟩, ⟨.decNum, "2"⟩,
   ⟨.plus, "+"⟩, ⟨.id, "b"⟩, ⟨.semicolon, ";"⟩,
   ⟨.id, "return"⟩, ⟨.id, "a"⟩, ⟨.plus, "+"⟩, ⟨.decNum, "1"⟩,
   ⟨.semicolon, ";"⟩,
   ⟨.rcurly, "\x7d"⟩]

/-- parse the body with `Parser.Block`, build the CFG of the resulting
function, lower it to SSA IR and run the interpreter on the emitted
instructions.  The analysis stage of the pipeline only accumulates
diagnostics (it neither rewrites the AST nor feeds the CFG/SSA stages),
so it does not influence the interpreted value. -/
def c2pipeline : Option Int :=
  match blockP 30 ⟨c2toks, 0, []⟩ with
  | (.ok (.block _ body), _) =>
    match FormCfg 30 ⟨"f", ⟨.int, 0, 0, ""⟩, [], body⟩ with
    | none => none
    | some sg =>
      match ssaBuild 30 sg with
      | none => none
      | some ss => vmRun ss.instructions
  | _ => none


mutual
/-- ids of the TERNARYVALS (':') nodes the `check` traversal visits (a
helper for stating the counting claims; not a source function).  It
mirrors the traversal's reach: the right child of a STRUCTDEC /
STRUCTPTRDEC binary is not visited. -/
def ternValsIds : GoNode → List Nat
  | .opUnary _ _ operand => ternValsIds operand
  | .opBinary i op l r =>
    match op with
    | .structdec | .structptrdec => ternValsIds l
    | .ternaryvals => i :: (ternValsIds l ++ ternValsIds r)
    | _ => ternValsIds l ++ ternValsIds r
  | .opAssign _ _ target what => ternValsIdsOpt what ++ ternValsIds target
  | .block _ vs => ternValsIdsList vs
  | .args _ vs => ternValsIdsList vs
  | .ifStmt _ cond vtrue vfalse =>
    ternValsIds cond ++ ternValsIds vtrue ++ ternValsIdsOpt vfalse
  | .forStmt _ finit cond oneach body =>
    ternValsIds finit ++ ternValsIds cond ++ ternValsIds oneach ++
      ternValsIds body
  | .whileStmt _ cond body => ternValsIds cond ++ ternValsIds body
  | .ret _ e => ternValsIdsOpt e
  | .assert _ e => ternValsIds e
  | .cast _ _ w => ternValsIds w
  | .allocArray _ _ e => ternValsIds e
  | _ => []

def ternValsIdsOpt : Option GoNode → List Nat
  | none => []
  | some n => ternValsIds n

def ternValsIdsList : List GoNode → List Nat
  | [] => []
  | n :: ns => ternValsIds n ++ ternValsIdsList ns
end

/-- the ':' id a '?' node increments: present when the right child is a
TERNARYVALS binary and the condition (left child, id `li`) has a
recorded type. -/
def terncondExtra (ht : Nat → Bool) (li : Nat) : GoNode → List Nat
  | .opBinary rid .ternaryvals _ _ => if ht li then [rid] else []
  | _ => []

mutual
/-- ids of the ':' nodes that sit as the right child of a visited '?'
node whose condition has a recorded type — the pairs whose counter the
'?' node increments (again a statement helper, not a source function). -/
def ternPairIds (hasType : Nat → Bool) : GoNode → List Nat
  | .opUnary _ _ operand => ternPairIds hasType operand
  | .opBinary _ op l r =>
    match op with
    | .structdec | .structptrdec => ternPairIds hasType l
    | .ternarycond =>
      ternPairIds hasType l ++ ternPairIds hasType r ++
        terncondExtra hasType (nodeId l) r
    | _ => ternPairIds hasType l ++ ternPairIds hasType r
  | .opAssign _ _ target what =>
    ternPairIdsOpt hasType what ++ ternPairIds hasType target
  | .block _ vs => ternPairIdsList hasType vs
  | .args _ vs => ternPairIdsList hasType vs
  | .ifStmt _ cond vtrue vfalse =>
    ternPairIds hasType cond ++ ternPairIds hasType vtrue ++
      ternPairIdsOpt hasType vfalse
  | .forStmt _ finit cond oneach body =>
    ternPairIds hasType finit ++ ternPairIds hasType cond ++
      ternPairIds hasType oneach ++ ternPairIds hasType body
  | .whileStmt _ cond body =>
    ternPairIds hasType cond ++ ternPairIds hasType body
  | .ret _ e => ternPairIdsOpt hasType e
  | .assert _ e => ternPairIds hasType e
  | .cast _ _ w => ternPairIds hasType w
  | .allocArray _ _ e => ternPairIds hasType e
  | _ => []

def ternPairIdsOpt (hasType : Nat → Bool) : Option GoNode → List Nat
  | none => []
  | some n => ternPairIds hasType n

def ternPairIdsList (hasType : Nat → Bool) : List GoNode → List Nat
  | [] => []
  | n :: ns => ternPairIds hasType n ++ ternPairIdsList hasType ns
end

/-- the facts the ternary traversal establishes over one subtree: the
map is untouched outside `ids`, incremented pairs read 2, marked but
unpaired ':' nodes read 1, and the pair/':' id lists live inside
`ids`. -/
def TravFacts (ids ps vs : List Nat) (ht : Nat → Bool)
    (m m' : TernMap) : Prop :=
  (∀ k, k ∉ ids → m'.lookup k = m.lookup k) ∧
  (∀ k ∈ ps, m'.lookup k = some 2) ∧
  (∀ k ∈ vs, k ∉ ps → m'.lookup k = some 1) ∧
  (∀ k ∈ ps, k ∈ ids) ∧
  (∀ k ∈ vs, k ∈ ids)

/-- the statement of the traversal invariant for one node. -/
def TernP (ht : Nat → Bool) (n : GoNode) : Prop :=
  ∀ m m', checkTern ht n m = some m' → (nodeIds n).Nodup →
    TravFacts (nodeIds n) (ternPairIds ht n) (ternValsIds n) ht m m' ∧
    nodeId n ∉ ternPairIds ht n

/-! ## Theorems -/

/-- case split on `Toks.peek`: either the stream runs out, or it stops at
the first non-comment token, leaving it in place. -/
theorem peek_cases (ts : Toks) :
    Toks.peek ts = (none, []) ∨
    ∃ t rest, t.isComment = false ∧ Toks.peek ts = (some t, t :: rest) := by
  induction ts with
  | nil => left; rfl
  | cons t ts ih =>
    by_cases h : t.isComment
    · simpa [Toks.peek, h] using ih
    · right
      exact ⟨t, ts, by simpa using h, by simp [Toks.peek, h]⟩

/-- **C9.** `Peek` permanently removes the leading comment tokens from
the stream (its post-state is the stream with the comment prefix
dropped, and its result is never a comment), so a subsequent `PeekAll`
or `Pop` returns exactly the token `Peek` returned — never a comment
that preceded it; and `Peek`, `PeekAll` and `Pop` all return `nil` on an
empty stream. -/
theorem c9_peek_discards_comment_prefix :
    ∀ ts : Toks,
      ((Toks.peek ts).2 = ts.dropWhile Tok.isComment) ∧
      (∀ t, (Toks.peek ts).1 = some t → t.isComment = false) ∧
      ((Toks.peekAll (Toks.peek ts).2).1 = (Toks.peek ts).1) ∧
      ((Toks.pop (Toks.peek ts).2).1 = (Toks.peek ts).1) ∧
      (Toks.peek [] = (none, []) ∧ Toks.peekAll [] = (none, []) ∧
        Toks.pop [] = (none, [])) := by
  intro ts
  refine ⟨?_, ?_, ?_, ?_, rfl, rfl, rfl⟩
  · induction ts with
    | nil => rfl
    | cons t ts ih =>
      by_cases h : t.isComment <;> simp [Toks.peek, List.dropWhile, h, ih]
  · intro u hu
    rcases peek_cases ts with h | ⟨t, rest, hc, h⟩ <;> rw [h] at hu <;>
      simp_all
  · rcases peek_cases ts with h | ⟨t, rest, hc, h⟩ <;> rw [h] <;> rfl
  · rcases peek_cases ts with h | ⟨t, rest, hc, h⟩ <;> rw [h] <;> rfl

/-- **C3.** On any scope chain, `get` returns the innermost binding (the
first hit walking the chain from the scope outwards), and `add` fails
exactly when the identifier is already bound somewhere along the chain —
in the scope itself or in any ancestor (no shadowing); a successful
`add` binds the identifier in the innermost frame, where `get` then
finds it. -/
theorem c3_scope_innermost_lookup_no_shadowing :
    ∀ (s : Scope) (x : String) (t : Ty),
      (Scope.get s x = s.findSome? (fun f => f.lookup x)) ∧
      (∀ f parents, s = f :: parents →
        ((Scope.add s x t = none) ↔ ∃ fr ∈ s, (fr.lookup x).isSome)) ∧
      (∀ f parents, s = f :: parents → Scope.get s x = none →
        Scope.add s x t = some (((x, t) :: f) :: parents) ∧
        Scope.get (((x, t) :: f) :: parents) x = some t) := by
  intro s x t
  have hget : ∀ s : Scope,
      Scope.get s x = s.findSome? (fun f => f.lookup x) := by
    intro s
    induction s with
    | nil => rfl
    | cons f parents ih =>
      simp only [Scope.get, List.findSome?]
      cases f.lookup x <;> simp [ih]
  have hsome : ∀ s : Scope,
      (Scope.get s x).isSome ↔ ∃ fr ∈ s, (fr.lookup x).isSome := by
    intro s
    induction s with
    | nil => simp [Scope.get]
    | cons f parents ih =>
      simp only [Scope.get]
      cases h : f.lookup x with
      | some v =>
        simp only [h, Option.isSome_some, true_iff]
        exact ⟨f, by simp, by simp [h]⟩
      | none =>
        simp only [h]
        rw [ih]
        constructor
        · rintro ⟨fr, hin, hs⟩
          exact ⟨fr, by simp [hin], hs⟩
        · rintro ⟨fr, hin, hs⟩
          rcases List.mem_cons.mp hin with rfl | hin
          · simp [h] at hs
          · exact ⟨fr, hin, hs⟩
  refine ⟨hget s, ?_, ?_⟩
  · rintro f parents rfl
    rw [← hsome (f :: parents)]
    simp only [Scope.add]
    constructor
    · intro h
      by_cases hs : (Scope.get (f :: parents) x).isSome
      · exact hs
      · simp [hs] at h
    · intro h
      simp [h]
  · rintro f parents rfl hnone
    constructor
    · simp [Scope.add, hnone]
    · simp [Scope.get]

/-- **C3 witness.** -/
theorem c3_scope_innermost_lookup_no_shadowing_witness :
    Scope.add [[("y", tyInt)]] "x" tyBool = some [[("x", tyBool), ("y", tyInt)]] ∧
    Scope.get [[("x", tyBool), ("y", tyInt)]] "x" = some tyBool := by
  have h := (c3_scope_innermost_lookup_no_shadowing
    [[("y", tyInt)]] "x" tyBool).2.2 [("y", tyInt)] [] rfl
    (by simp [Scope.get, List.lookup])
  exact h

/-- **C1** (evaluation at the failing input): lowering
`int f(){ int a=1; a=2; return a; }` emits two STOREs to `a` that both
target generation 0 — `getNewStorable` re-uses the current generation
for a `Variable` store target instead of bumping it, so successive
stores to the same user variable do **not** use strictly increasing
generation counters. -/
theorem c1_successive_stores_not_increasing :
    c1stores = some [0, 0] ∧ ¬ List.Chain' (· < ·) ([0, 0] : List Nat) := by
  constructor
  · simp [c1stores, c1body, FormCfg, form, newblock, newsucc, newstmt,
      updBlock, BLOCKID_ENTRY, BLOCKID_EXIT, ssaBuild, emitBlock,
      emitSuccs, emitStmts, emitStmt, emitExpr, ssaEmit, registerNew,
      register, getNewVariable, getCurrentVariable, getNewStorable,
      genIncrease, genGet, setAssoc, irTypeInt, List.filterMap,
      List.lookup]
  · simp [List.chain'_cons]

set_option maxHeartbeats 2000000 in
/-- **C2.** Parsing `int f(){ int a=1; int b=a+3; a=a*2+b; return a+1; }`,
building its CFG, lowering to SSA IR and interpreting the emitted
instructions yields the signed 32-bit value 7. -/
theorem c2_pipeline_interprets_to_7 : c2pipeline = some 7 := by
  simp [c2pipeline, c2toks, blockP, blockLoop, stmt, simpleStmt, exprP,
    exprParse, exprAtom, exprLoop, exprArgs, varDeclP, typeP, store,
    Toks.peek, Toks.pop, Toks.accept, Toks.find, Tok.isComment,
    countRun, tokToUnop, tokToBinop, tokToAsnop, tokToStmtSuffix,
    precedenceb, precedenceu, isleftassocb, isValidPrimitive, isReserved,
    goParseInt, clampInt32, digitsVal, digitVal, setIfFalse,
    FormCfg, form, newif, newwhile, newfor, newloop, newblock, newsucc,
    newstmt, updBlock, extractbody, BLOCKID_ENTRY, BLOCKID_EXIT,
    ssaBuild, emitBlock, emitSuccs, emitStmts, emitStmt, emitExpr,
    ssaEmit, registerNew, register, getNewVariable, getCurrentVariable,
    getNewStorable, genIncrease, genGet, setAssoc, irTypeInt,
    vmRun, vmRunLoop, vmStep, vmSet, extractValue, wrap32,
    List.lookup, List.reduceOption, List.filterMap, List.getD, List.set,
    Option.getD, Option.map]

/-- a successful match forces equal base enum, pointer level and array
level (the leading field comparison of `Type.Matches`). -/
theorem matches_true_fields_eq :
    ∀ t1 t2 : Ty, Ty.Matches t1 t2 = some true →
      t1.type = t2.type ∧ t1.pointerLevel = t2.pointerLevel ∧
        t1.arrayLevel = t2.arrayLevel := by
  intro t1 t2 h
  cases t1 with
  | mk t p a e =>
    cases t2 with
    | mk t2 p2 a2 e2 =>
      rw [Ty.Matches.eq_def] at h
      dsimp only [] at h
      by_cases hg : (decide (t ≠ t2) || decide (p ≠ p2) ||
          decide (a ≠ a2)) = true
      · rw [if_pos hg] at h
        cases h
      · simp only [Bool.or_eq_true, decide_eq_true_eq, ne_eq,
          not_or, Bool.not_eq_true] at hg
        obtain ⟨⟨h1, h2⟩, h3⟩ := hg
        simp only [decide_eq_false_iff_not, not_not] at h1 h2 h3
        exact ⟨h1, h2, h3⟩

/-- the operand test `v` of `checkEq`, spelled out. -/
theorem eqOperandOk_iff (k : Ty) :
    eqOperandOk k = true ↔
      (Ty.Matches k tyInt = some true ∨ Ty.Matches k tyBool = some true ∨
        Ty.Matches k tyChar = some true ∨ 0 < k.arrayLevel) := by
  simp [eqOperandOk, or_assoc]

/-- **C5.** `checkEq` assigns `bool` to the equality node in every case
(missing operand types and diagnosed errors included); with both operand
types known it stays silent exactly when each operand's type matches
int, bool or char or is an array, and the two types match each other; a
pointer operand and a plain struct operand always draw a diagnostic. -/
theorem c5_checkEq_assigns_bool_rejects_pointers_structs :
    (∀ kl kr res, checkEq kl kr = some res → res.1 = tyBool) ∧
    (∀ kr, checkEq none kr = some (tyBool, [])) ∧
    (∀ kl, checkEq (some kl) none = some (tyBool, [])) ∧
    (∀ kl kr : Ty, ∀ b : Bool, Ty.Matches kl kr = some b →
      ∃ errs, checkEq (some kl) (some kr) = some (tyBool, errs) ∧
        (errs = [] ↔
          ((Ty.Matches kl tyInt = some true ∨
            Ty.Matches kl tyBool = some true ∨
            Ty.Matches kl tyChar = some true ∨ 0 < kl.arrayLevel) ∧
           (Ty.Matches kr tyInt = some true ∨
            Ty.Matches kr tyBool = some true ∨
            Ty.Matches kr tyChar = some true ∨ 0 < kr.arrayLevel) ∧
           b = true)) ∧
        (0 < kl.pointerLevel → kl.arrayLevel = 0 → errs ≠ []) ∧
        (kl.type = .strct → kl.pointerLevel = 0 → kl.arrayLevel = 0 →
          errs ≠ [])) := by
  refine ⟨?_, fun kr => rfl, fun kl => rfl, ?_⟩
  · intro kl kr res h
    match kl, kr with
    | none, _ => cases h; rfl
    | some kl, none => cases h; rfl
    | some kl, some kr =>
      simp only [checkEq] at h
      cases hM : Ty.Matches kl kr with
      | none => rw [hM] at h; cases h
      | some b => rw [hM] at h; cases h; rfl
  · intro kl kr b hM
    refine ⟨(if ¬ (eqOperandOk kl ∧ eqOperandOk kr) then
        [AErr.compareBadType] else []) ++ (if ¬ b then [.compareTypes]
        else []), ?_, ?_, ?_, ?_⟩
    · simp only [checkEq, hM]
    · constructor
      · intro h
        rcases List.append_eq_nil.mp h with ⟨h1, h2⟩
        by_cases hv : eqOperandOk kl ∧ eqOperandOk kr
        · by_cases hb : b = true
          · exact ⟨(eqOperandOk_iff kl).mp hv.1,
              (eqOperandOk_iff kr).mp hv.2, hb⟩
          · simp [hb] at h2
        · simp [hv] at h1
      · rintro ⟨h1, h2, rfl⟩
        have hv : eqOperandOk kl ∧ eqOperandOk kr :=
          ⟨(eqOperandOk_iff kl).mpr h1, (eqOperandOk_iff kr).mpr h2⟩
        simp [hv]
    · intro hp ha
      have hv : eqOperandOk kl = false := by
        rw [Bool.eq_false_iff, Ne, eqOperandOk_iff]
        rintro (h | h | h | h)
        · have h0 : kl.pointerLevel = 0 :=
            (matches_true_fields_eq kl tyInt h).2.1
          omega
        · have h0 : kl.pointerLevel = 0 :=
            (matches_true_fields_eq kl tyBool h).2.1
          omega
        · have h0 : kl.pointerLevel = 0 :=
            (matches_true_fields_eq kl tyChar h).2.1
          omega
        · omega
      simp [hv]
    · intro ht hp ha
      have hv : eqOperandOk kl = false := by
        rw [Bool.eq_false_iff, Ne, eqOperandOk_iff]
        rintro (h | h | h | h)
        · have h0 : kl.type = TypeEnum.int :=
            (matches_true_fields_eq kl tyInt h).1
          rw [ht] at h0
          cases h0
        · have h0 : kl.type = TypeEnum.bool :=
            (matches_true_fields_eq kl tyBool h).1
          rw [ht] at h0
          cases h0
        · have h0 : kl.type = TypeEnum.char :=
            (matches_true_fields_eq kl tyChar h).1
          rw [ht] at h0
          cases h0
        · omega
      simp [hv]

/-- **C5 witness.** `int* == int*`: the types match, yet the pointer
operands are rejected with a diagnostic, and the node still gets type
`bool`. -/
theorem c5_checkEq_assigns_bool_rejects_pointers_structs_witness :
    ∃ errs, checkEq (some (Ty.mk .int 1 0 none)) (some (Ty.mk .int 1 0 none)) =
      some (tyBool, errs) ∧ errs ≠ [] := by
  obtain ⟨errs, he, _, hptr, _⟩ :=
    c5_checkEq_assigns_bool_rejects_pointers_structs.2.2.2
      (Ty.mk .int 1 0 none) (Ty.mk .int 1 0 none) true
      (by rw [Ty.Matches.eq_def]; dsimp only []; simp)
  exact ⟨errs, he, hptr (by simp [Ty.pointerLevel]) rfl⟩

/-- `digitsVal` on a nonempty list of valid digits computes the base-b
positional value of the digit string. -/
theorem digitsVal_eq_ofDigits (base : Nat) :
    ∀ ds : List Char, ds ≠ [] → (∀ c ∈ ds, (digitVal base c).isSome) →
      digitsVal base ds =
        some (Nat.ofDigits base
          ((ds.map (fun c => (digitVal base c).getD 0)).reverse)) := by
  intro ds
  induction ds with
  | nil => intro h; exact absurd rfl h
  | cons c cs ih =>
    intro _ hall
    have hc : (digitVal base c).isSome := hall c (by simp)
    obtain ⟨d, hd⟩ := Option.isSome_iff_exists.mp hc
    cases cs with
    | nil =>
      simp [digitsVal, hd, Nat.ofDigits]
    | cons c2 cs2 =>
      have hcs : (c2 :: cs2) ≠ [] := by simp
      have := ih hcs (fun x hx => hall x (by simp [hx]))
      simp only [digitsVal, hd, this]
      simp only [List.map_cons, List.reverse_cons, Nat.ofDigits_append]
      simp [hd, Nat.ofDigits_singleton]
      ring

theorem digit_char_bounds (c : Char) (h1 : '0' ≤ c) (h2 : c ≤ '9') :
    48 ≤ c.toNat ∧ c.toNat ≤ 57 := by
  simp [Char.le_def, UInt32.le_def, Char.toNat, UInt32.toNat,
    BitVec.le_def] at h1 h2 ⊢
  omega

theorem digitVal_dec (c : Char) (h1 : '0' ≤ c) (h2 : c ≤ '9') :
    digitVal 10 c = some (c.toNat - 48) := by
  obtain ⟨hb1, hb2⟩ := digit_char_bounds c h1 h2
  have h0 : '0'.toNat = 48 := rfl
  have hlt : c.toNat - 48 < 10 := by omega
  simp [digitVal, h1, h2, h0, hlt]

theorem clampInt32_bounds (z v : Int) (h : clampInt32 z = some v) :
    -2147483648 ≤ v ∧ v ≤ 2147483647 := by
  simp only [clampInt32] at h
  split at h
  · rename_i hc
    cases h
    exact hc
  · cases h

/-- **C8.** The expression atom parser accepts integer literals: for a
decimal digit string `s` the parse succeeds exactly when the decimal
value of `s` fits a signed 32-bit integer (returning that value, and
`none` — the error — on overflow); any value `strconv`-parsing returns
is inside the signed 32-bit range; a `DecNum` token becomes a `Numeric`
node carrying the parsed value and base 10 (or the "invalid integer"
error when the parse fails); a `HexNum` token other than `0` is parsed
with its `0x` prefix stripped at base 16; and the bare hex literal `0`
is permitted and yields `Numeric 0` at base 16.  (The lexer only emits
`DecNum` for `1-9` followed by digits and `HexNum` for `0x…` or the
bare `0`.) -/
theorem c8_numeric_atom_parses_and_rejects_overflow :
    (∀ s : String, s.data ≠ [] → (∀ c ∈ s.data, '0' ≤ c ∧ c ≤ '9') →
      goParseInt s 10 =
        if Nat.ofDigits 10 ((s.data.map (fun c => c.toNat - 48)).reverse)
            ≤ 2147483647 then
          some ((Nat.ofDigits 10
            ((s.data.map (fun c => c.toNat - 48)).reverse) : Nat) : Int)
        else none) ∧
    (∀ (s : String) (base : Nat) (v : Int), goParseInt s base = some v →
      -2147483648 ≤ v ∧ v ≤ 2147483647) ∧
    (∀ (fuel : Nat) (st : PState) (tok : Tok) (rest : Toks),
      st.toks = tok :: rest → tok.kind = .decNum →
      exprAtom (fuel + 1) st =
        match goParseInt tok.value 10 with
        | some v => (.ok (.numeric (st.nextId + 1) v 10),
                     ⟨rest, st.nextId + 1, st.typedefs⟩)
        | none => (.error (.err "invalid integer"),
                   ⟨rest, st.nextId, st.typedefs⟩)) ∧
    (∀ (fuel : Nat) (st : PState) (tok : Tok) (rest : Toks),
      st.toks = tok :: rest → tok.kind = .hexNum → tok.value ≠ "0" →
      exprAtom (fuel + 1) st =
        match goParseInt (tok.value.drop 2) 16 with
        | some v => (.ok (.numeric (st.nextId + 1) v 16),
                     ⟨rest, st.nextId + 1, st.typedefs⟩)
        | none => (.error (.err "invalid integer"),
                   ⟨rest, st.nextId, st.typedefs⟩)) ∧
    (∀ (fuel : Nat) (st : PState) (rest : Toks),
      st.toks = (⟨.hexNum, "0"⟩ : Tok) :: rest →
      exprAtom (fuel + 1) st =
        (.ok (.numeric (st.nextId + 1) 0 16),
         ⟨rest, st.nextId + 1, st.typedefs⟩)) := by
  refine ⟨?_, ?_, ?_, ?_, ?_⟩
  · intro s hne hdig
    have hall : ∀ c ∈ s.data, (digitVal 10 c).isSome := by
      intro c hc
      obtain ⟨h1, h2⟩ := hdig c hc
      simp [digitVal_dec c h1 h2]
    obtain ⟨c, cs, hcons⟩ := List.exists_cons_of_ne_nil hne
    have hc0 := hdig c (by simp [hcons])
    have hcm : ¬ (c = '-') := by
      rintro rfl
      exact absurd hc0.1 (by decide)
    have hcp : ¬ (c = '+') := by
      rintro rfl
      exact absurd hc0.1 (by decide)
    have hmap : (s.data.map (fun c => (digitVal 10 c).getD 0)) =
        (s.data.map (fun c => c.toNat - 48)) := by
      apply List.map_congr_left
      intro x hx
      obtain ⟨h1, h2⟩ := hdig x hx
      simp [digitVal_dec x h1 h2]
    simp only [goParseInt, hcons, if_neg hcm, if_neg hcp]
    rw [← hcons, digitsVal_eq_ofDigits 10 s.data hne hall, hmap]
    set n := Nat.ofDigits 10 ((s.data.map (fun c => c.toNat - 48)).reverse)
      with hn
    by_cases hle : n ≤ 2147483647
    · have hc : -2147483648 ≤ (n : Int) ∧ (n : Int) ≤ 2147483647 :=
        ⟨by omega, by omega⟩
      simp [clampInt32, hle, hc]
    · have hc : ¬ (-2147483648 ≤ (n : Int) ∧ (n : Int) ≤ 2147483647) := by
        rintro ⟨_, h2⟩
        exact hle (by omega)
      simp [clampInt32, hle, hc]
  · intro s base v h
    simp only [goParseInt] at h
    split at h
    · cases h
    · exact clampInt32_bounds _ _ h
  · intro fuel st tok rest htoks hkind
    obtain ⟨k, v⟩ := tok
    simp only at hkind
    subst hkind
    cases hgp : goParseInt v 10 with
    | none =>
      simp [exprAtom, htoks, Toks.peek, Toks.pop, Tok.isComment,
        tokToUnop, store, hgp]
    | some w =>
      simp [exprAtom, htoks, Toks.peek, Toks.pop, Tok.isComment,
        tokToUnop, store, hgp]
  · intro fuel st tok rest htoks hkind hv
    obtain ⟨k, v⟩ := tok
    simp only at hkind hv
    subst hkind
    cases hgp : goParseInt (v.drop 2) 16 with
    | none =>
      simp [exprAtom, htoks, Toks.peek, Toks.pop, Tok.isComment,
        tokToUnop, store, hgp, hv]
    | some w =>
      simp [exprAtom, htoks, Toks.peek, Toks.pop, Tok.isComment,
        tokToUnop, store, hgp, hv]
  · intro fuel st rest htoks
    simp [exprAtom, htoks, Toks.peek, Toks.pop, Tok.isComment,
      tokToUnop, store, goParseInt, clampInt32, digitsVal, digitVal]

/-- **C8 witness.** `7` parses to `Numeric 7` at base 10, and the
decimal literal `2147483648` (one past `MaxInt32`) is rejected. -/
theorem c8_numeric_atom_parses_and_rejects_overflow_witness :
    exprAtom 1 ⟨[⟨.decNum, "7"⟩], 0, []⟩ =
      (.ok (.numeric 1 7 10), ⟨[], 1, []⟩) ∧
    exprAtom 1 ⟨[⟨.decNum, "2147483648"⟩], 0, []⟩ =
      (.error (.err "invalid integer"), ⟨[], 0, []⟩) := by
  constructor
  · have h := c8_numeric_atom_parses_and_rejects_overflow.2.2.1 0
      ⟨[⟨.decNum, "7"⟩], 0, []⟩ ⟨.decNum, "7"⟩ [] rfl rfl
    rw [h]
    simp [goParseInt, clampInt32, digitsVal, digitVal]
  · have h := c8_numeric_atom_parses_and_rejects_overflow.2.2.1 0
      ⟨[⟨.decNum, "2147483648"⟩], 0, []⟩ ⟨.decNum, "2147483648"⟩ [] rfl rfl
    rw [h]
    simp [goParseInt, clampInt32, digitsVal, digitVal]

/-- **C10.** `Parser.Block` produces a `Block` node exactly when the
statement loop recorded no failure and the closing `}` is present: a
failing statement makes the loop resynchronise — pop up to and including
the next `;` or `}` — and continue collecting (with the error flag
latched), and a latched flag always survives to the end of the loop, so
the block call ultimately returns an error and no `Block` node reaches
the caller. -/
theorem c10_block_ok_iff_all_stmts_ok :
    (∀ (fuel : Nat) (st : PState) (first : Tok) (ts : Toks)
       (stmts : List (Option GoNode)) (inerror : Bool) (st2 : PState),
      Toks.peek st.toks = (some first, ts) → first.kind = .lcurly →
      blockLoop fuel { st with toks := (Toks.pop ts).2 } [] false =
        (.ok (stmts, inerror), st2) →
      ((∃ b st3, blockP (fuel + 1) st = (.ok b, st3)) ↔
        (inerror = false ∧ (Toks.accept .rcurly st2.toks).1 = true))) ∧
    (∀ (fuel : Nat) (st st1 : PState) (acc : List (Option GoNode))
       (ierr : Bool) (t : Tok) (ts : Toks) (e : PErr),
      Toks.peek st.toks = (some t, ts) → t.kind ≠ .rcurly →
      stmt fuel { st with toks := ts } = (.error e, st1) →
      blockLoop (fuel + 1) st acc ierr =
        blockLoop fuel
          { st1 with toks :=
              (Toks.pop (Toks.find [.semicolon, .rcurly] st1.toks).2).2 }
          (acc ++ [none]) true) ∧
    (∀ (fuel : Nat) (st st1 : PState) (acc : List (Option GoNode))
       (ierr : Bool) (t : Tok) (ts : Toks) (s : GoNode),
      Toks.peek st.toks = (some t, ts) → t.kind ≠ .rcurly →
      stmt fuel { st with toks := ts } = (.ok s, st1) →
      blockLoop (fuel + 1) st acc ierr =
        blockLoop fuel st1 (acc ++ [some s]) ierr) ∧
    (∀ (fuel : Nat) (st : PState) (acc stmts : List (Option GoNode))
       (b : Bool) (st2 : PState),
      blockLoop fuel st acc true = (.ok (stmts, b), st2) → b = true) := by
  refine ⟨?_, ?_, ?_, ?_⟩
  · intro fuel st first ts stmts inerror st2 hpeek hfirst hloop
    rcases haccept : Toks.accept .rcurly st2.toks with ⟨okr, ts2⟩
    have hbp : blockP (fuel + 1) st =
        (if okr then
          (if inerror then
            (.error (.err "block contained errors"), { st2 with toks := ts2 })
          else
            ((fun p => (Except.ok p.1, p.2))
              (store { st2 with toks := ts2 }
                (fun i => .block i (stmts.reduceOption)))))
        else (.error (.err "block not terminated"), { st2 with toks := ts2 })) := by
      simp only [blockP, hpeek, hfirst, if_pos rfl, hloop, haccept]
      cases okr <;> cases inerror <;> simp [store]
    constructor
    · rintro ⟨b, st3, hok⟩
      rw [hbp] at hok
      cases okr <;> cases inerror <;> simp_all [store]
    · rintro ⟨hi, ho⟩
      subst hi
      rw [hbp]
      cases okr with
      | true =>
        exact ⟨.block (st2.nextId + 1) stmts.reduceOption,
          ⟨ts2, st2.nextId + 1, st2.typedefs⟩, by simp [store]⟩
      | false => cases ho
  · intro fuel st st1 acc ierr t ts e hpeek hkind hstmt
    simp [blockLoop, hpeek, hkind, hstmt]
  · intro fuel st st1 acc ierr t ts s hpeek hkind hstmt
    simp [blockLoop, hpeek, hkind, hstmt]
  · intro fuel
    induction fuel with
    | zero => intro st acc stmts b st2 h; cases h
    | succ fuel ih =>
      intro st acc stmts b st2 h
      simp only [blockLoop] at h
      rcases hpeek : Toks.peek st.toks with ⟨top, ts⟩
      rw [hpeek] at h
      cases top with
      | none => cases h; rfl
      | some t =>
        dsimp only [] at h
        by_cases hk : t.kind = .rcurly
        · rw [if_pos hk] at h
          cases h
          rfl
        · rw [if_neg hk] at h
          rcases hstmt : stmt fuel { st with toks := ts } with ⟨res, st1⟩
          rw [hstmt] at h
          cases res with
          | ok s => exact ih _ _ _ _ _ h
          | error e => exact ih _ _ _ _ _ h

/-- **C10 witness.** the empty block `{ }` parses to a `Block` node. -/
theorem c10_block_ok_iff_all_stmts_ok_witness :
    ∃ b st3, blockP 2 ⟨[⟨.lcurly, "\x7b"⟩, ⟨.rcurly, "\x7d"⟩], 0, []⟩ =
      (.ok b, st3) :=
  (c10_block_ok_iff_all_stmts_ok.1 1
    ⟨[⟨.lcurly, "\x7b"⟩, ⟨.rcurly, "\x7d"⟩], 0, []⟩ ⟨.lcurly, "\x7b"⟩
    [⟨.lcurly, "\x7b"⟩, ⟨.rcurly, "\x7d"⟩] [] false ⟨[⟨.rcurly, "\x7d"⟩], 0, []⟩
    rfl rfl rfl).mpr ⟨rfl, rfl⟩

theorem newstmt_blockid (sg : CfgState) (b : BlockId) (n : GoNode) :
    (newstmt sg b n).blockid = sg.blockid := rfl

theorem newstmt_branchid (sg : CfgState) (b : BlockId) (n : GoNode) :
    (newstmt sg b n).branchid = sg.branchid := rfl

theorem newsucc_blockid (sg : CfgState) (b : BlockId) (rp : BranchParent) :
    (newsucc sg b rp).blockid = sg.blockid := rfl

theorem newsucc_branchid (sg : CfgState) (b : BlockId) (rp : BranchParent) :
    (newsucc sg b rp).branchid = sg.branchid + 1 := rfl

theorem newstmt_blocks_eq (sg : CfgState) (b : BlockId) (n : GoNode) :
    (newstmt sg b n).blocks b =
      ⟨(sg.blocks b).stmts ++ [n], (sg.blocks b).succs⟩ := by
  simp [newstmt, updBlock]

theorem newstmt_blocks_ne (sg : CfgState) (b : BlockId) (n : GoNode)
    (b' : BlockId) (h : b' ≠ b) :
    (newstmt sg b n).blocks b' = sg.blocks b' := by
  simp [newstmt, updBlock, h]

theorem newsucc_blocks_eq (sg : CfgState) (b : BlockId) (rp : BranchParent) :
    (newsucc sg b rp).blocks b =
      ⟨(sg.blocks b).stmts,
       (sg.blocks b).succs ++
         [⟨sg.branchid + 1, rp.how, rp.node, rp.to'.getD BLOCKID_EXIT⟩]⟩ := by
  simp [newsucc, updBlock]

theorem newsucc_blocks_ne (sg : CfgState) (b : BlockId) (rp : BranchParent)
    (b' : BlockId) (h : b' ≠ b) :
    (newsucc sg b rp).blocks b' = sg.blocks b' := by
  simp [newsucc, updBlock, h]

theorem appendStmts_blockid (l : List GoNode) : ∀ (sg : CfgState) (b : BlockId),
    (appendStmts sg b l).blockid = sg.blockid := by
  induction l with
  | nil => intro sg b; rfl
  | cons x xs ih => intro sg b; exact (ih (newstmt sg b x) b)

theorem appendStmts_branchid (l : List GoNode) : ∀ (sg : CfgState) (b : BlockId),
    (appendStmts sg b l).branchid = sg.branchid := by
  induction l with
  | nil => intro sg b; rfl
  | cons x xs ih => intro sg b; exact (ih (newstmt sg b x) b)

theorem appendStmts_blocks_ne (l : List GoNode) : ∀ (sg : CfgState)
    (b b' : BlockId), b' ≠ b → (appendStmts sg b l).blocks b' = sg.blocks b' := by
  induction l with
  | nil => intro sg b b' _; rfl
  | cons x xs ih =>
    intro sg b b' h
    calc (appendStmts (newstmt sg b x) b xs).blocks b'
        = (newstmt sg b x).blocks b' := ih (newstmt sg b x) b b' h
      _ = sg.blocks b' := newstmt_blocks_ne sg b x b' h

theorem appendStmts_blocks_eq (l : List GoNode) : ∀ (sg : CfgState) (b : BlockId),
    (appendStmts sg b l).blocks b =
      ⟨(sg.blocks b).stmts ++ l, (sg.blocks b).succs⟩ := by
  induction l with
  | nil => intro sg b; simp [appendStmts]
  | cons x xs ih =>
    intro sg b
    calc (appendStmts (newstmt sg b x) b xs).blocks b
        = ⟨((newstmt sg b x).blocks b).stmts ++ xs,
           ((newstmt sg b x).blocks b).succs⟩ := ih (newstmt sg b x) b
      _ = ⟨(sg.blocks b).stmts ++ x :: xs, (sg.blocks b).succs⟩ := by
          rw [newstmt_blocks_eq]; simp

/-- over a run of plain statements, `form` appends them all to the current
block and then closes it with the branch-parent edge. -/
theorem form_plain (l : List GoNode) : ∀ (fuel : Nat) (sg : CfgState)
    (b : BlockId) (rp : BranchParent) (lp : Option BranchLoop),
    (∀ x ∈ l, PlainStmt x = true) → l.length < fuel →
    form fuel sg b rp lp l = some (newsucc (appendStmts sg b l) b rp) := by
  induction l with
  | nil =>
    intro fuel sg b rp lp _ hf
    cases fuel with
    | zero => omega
    | succ f => simp [form, appendStmts]
  | cons n rest ih =>
    intro fuel sg b rp lp hp hf
    cases fuel with
    | zero => simp at hf
    | succ f =>
      have hn : PlainStmt n = true := hp n (by simp)
      have hrest : ∀ x ∈ rest, PlainStmt x = true := fun x hx => hp x (by simp [hx])
      have hlen : rest.length < f := by simp at hf; omega
      cases n <;> first
        | (simp only [form]; exact ih f _ b rp lp hrest hlen)
        | simp [PlainStmt] at hn

/-- one-step unfolding of `newloop` given the results of the three inner
`form` calls (after-loop continuation, step body, loop body). -/
theorem newloop_unfold (f : Nat) (sg sgA sgS sgL : CfgState) (b : BlockId)
    (n : GoNode) (body : List GoNode) (kt kf : BranchKind) (rp : BranchParent)
    (left : List GoNode) (step : Option GoNode)
    (h1 : form f { sg with blockid := sg.blockid + 1 } (sg.blockid + 1) rp
      none left = some sgA)
    (h2 : form f { sgA with blockid := sgA.blockid + 2 } (sgA.blockid + 2)
      ⟨some (sgA.blockid + 1), some n, kt⟩ none
      (match step with | none => [] | some s => [s]) = some sgS)
    (h3 : form f sgS (sgA.blockid + 1) ⟨some (sgA.blockid + 2), some n, .always⟩
      (some ⟨sg.blockid + 1, sgA.blockid + 2, some n⟩) body = some sgL) :
    newloop (f + 1) sg b n body kt kf rp left step =
      some (newsucc (newsucc (newsucc sgL (sgA.blockid + 2)
        ⟨some (sg.blockid + 1), some n, kf⟩) b
        ⟨some (sgA.blockid + 1), some n, kt⟩) b
        ⟨some (sg.blockid + 1), some n, kf⟩) := by
  cases step with
  | none =>
    dsimp only [] at h2
    rw [newloop]
    dsimp only [newblock]
    rw [h1]
    dsimp only []
    rw [h2]
    dsimp only []
    rw [h3]
  | some s =>
    dsimp only [] at h2
    rw [newloop]
    dsimp only [newblock]
    rw [h1]
    dsimp only []
    rw [h2]
    dsimp only []
    rw [h3]

/-- `newloop` over plain-statement body/step/continuation, on a fresh state:
three fresh blocks (afterloop, lb, sb) and exactly the claimed edges. -/
theorem newloop_plain_spec (fuel : Nat) (sg : CfgState) (b : BlockId)
    (n : GoNode) (body : List GoNode) (kt kf : BranchKind) (rp : BranchParent)
    (left : List GoNode) (step : Option GoNode)
    (hbody : ∀ x ∈ body, PlainStmt x = true)
    (hleft : ∀ x ∈ left, PlainStmt x = true)
    (hstep : ∀ s, step = some s → PlainStmt s = true)
    (hf : body.length + left.length + 3 < fuel)
    (hb : b ≤ sg.blockid)
    (hfresh : ∀ i, sg.blockid < i → sg.blocks i = {}) :
    ∃ sg', newloop fuel sg b n body kt kf rp left step = some sg' ∧
      sg'.blockid = sg.blockid + 3 ∧
      sg'.branchid = sg.branchid + 6 ∧
      (sg'.blocks b).stmts = (sg.blocks b).stmts ∧
      (sg'.blocks b).succs = (sg.blocks b).succs ++
        [⟨sg.branchid + 5, kt, some n, sg.blockid + 2⟩,
         ⟨sg.branchid + 6, kf, some n, sg.blockid + 1⟩] ∧
      (sg'.blocks (sg.blockid + 2)).stmts = body ∧
      (sg'.blocks (sg.blockid + 2)).succs =
        [⟨sg.branchid + 3, .always, some n, sg.blockid + 3⟩] ∧
      (sg'.blocks (sg.blockid + 3)).stmts = step.elim [] (fun s => [s]) ∧
      (sg'.blocks (sg.blockid + 3)).succs =
        [⟨sg.branchid + 2, kt, some n, sg.blockid + 2⟩,
         ⟨sg.branchid + 4, kf, some n, sg.blockid + 1⟩] ∧
      (sg'.blocks (sg.blockid + 1)).stmts = left ∧
      (sg'.blocks (sg.blockid + 1)).succs =
        [⟨sg.branchid + 1, rp.how, rp.node, rp.to'.getD BLOCKID_EXIT⟩] := by
  cases fuel with
  | zero => exact absurd hf (by omega)
  | succ f =>
  have hss : ∀ x ∈ (match step with
      | none => [] | some s => [s] : List GoNode), PlainStmt x = true := by
    cases step with
    | none => simp
    | some s => simpa using hstep s rfl
  have hbk : ∀ k, 0 < k → b < sg.blockid + k :=
    fun k hk => lt_of_le_of_lt hb (Nat.lt_add_of_pos_right hk)
  have d1 : sg.blockid + 1 ≠ b := Nat.ne_of_gt (hbk 1 (by decide))
  have d2 : sg.blockid + 2 ≠ b := Nat.ne_of_gt (hbk 2 (by decide))
  have d3 : sg.blockid + 3 ≠ b := Nat.ne_of_gt (hbk 3 (by decide))
  have d1' : b ≠ sg.blockid + 1 := Nat.ne_of_lt (hbk 1 (by decide))
  have d2' : b ≠ sg.blockid + 2 := Nat.ne_of_lt (hbk 2 (by decide))
  have d3' : b ≠ sg.blockid + 3 := Nat.ne_of_lt (hbk 3 (by decide))
  have hf1 : sg.blocks (sg.blockid + 1) = {} :=
    hfresh _ (Nat.lt_add_of_pos_right (by decide))
  have hf2 : sg.blocks (sg.blockid + 2) = {} :=
    hfresh _ (Nat.lt_add_of_pos_right (by decide))
  have hf3 : sg.blocks (sg.blockid + 3) = {} :=
    hfresh _ (Nat.lt_add_of_pos_right (by decide))
  have hmain := newloop_unfold f sg _ _ _ b n body kt kf rp left step
    (form_plain left f _ _ rp none hleft (by omega))
    (form_plain _ f _ _ _ none hss (by cases step <;> simp <;> omega))
    (form_plain body f _ _ _ _ hbody (by omega))
  refine ⟨_, hmain, ?_, ?_, ?_, ?_, ?_, ?_, ?_, ?_, ?_, ?_⟩ <;>
    simp +arith [newsucc_blocks_eq, newsucc_blocks_ne, newstmt_blocks_eq,
      newstmt_blocks_ne, appendStmts_blocks_eq, appendStmts_blocks_ne,
      newsucc_blockid, newsucc_branchid, newstmt_blockid, newstmt_branchid,
      appendStmts_blockid, appendStmts_branchid,
      d1, d2, d3, d1', d2', d3', hf1, hf2, hf3] <;>
    (try (cases step <;> rfl))

/-- a `break` statement: an immediate ALWAYS edge to the loop context's
after-loop block, then the statement itself; the rest of the list is
dropped and no fall-through edge is added. -/
theorem form_break (fuel : Nat) (sg : CfgState) (b : BlockId)
    (rp : BranchParent) (lp : BranchLoop) (i : Nat) (rest : List GoNode)
    (hfuel : 0 < fuel) :
    form fuel sg b rp (some lp) (.breakStmt i :: rest) =
      some (newstmt (newsucc sg b ⟨some lp.afterloop, lp.node, .always⟩) b
        (.breakStmt i)) := by
  cases fuel with
  | zero => exact absurd hfuel (by decide)
  | succ f => simp [form]

/-- a `continue` statement: an immediate ALWAYS edge to the loop context's
step block, then the statement itself; the rest of the list is dropped. -/
theorem form_continue (fuel : Nat) (sg : CfgState) (b : BlockId)
    (rp : BranchParent) (lp : BranchLoop) (i : Nat) (rest : List GoNode)
    (hfuel : 0 < fuel) :
    form fuel sg b rp (some lp) (.continueStmt i :: rest) =
      some (newstmt (newsucc sg b ⟨some lp.sb, lp.node, .always⟩) b
        (.continueStmt i)) := by
  cases fuel with
  | zero => exact absurd hfuel (by decide)
  | succ f => simp [form]

/-- a loop whose body is a single `break`: the loop-body block gets exactly
one successor, an ALWAYS edge to the after-loop block. -/
theorem newloop_break_spec (fuel : Nat) (sg : CfgState) (b : BlockId)
    (n : GoNode) (i : Nat) (kt kf : BranchKind) (rp : BranchParent)
    (left : List GoNode) (step : Option GoNode)
    (hleft : ∀ x ∈ left, PlainStmt x = true)
    (hstep : ∀ s, step = some s → PlainStmt s = true)
    (hf : left.length + 3 < fuel)
    (hb : b ≤ sg.blockid)
    (hfresh : ∀ j, sg.blockid < j → sg.blocks j = {}) :
    ∃ sg', newloop fuel sg b n [.breakStmt i] kt kf rp left step = some sg' ∧
      (sg'.blocks (sg.blockid + 2)).stmts = [.breakStmt i] ∧
      (sg'.blocks (sg.blockid + 2)).succs =
        [⟨sg.branchid + 3, .always, some n, sg.blockid + 1⟩] := by
  cases fuel with
  | zero => exact absurd hf (by omega)
  | succ f =>
  have hss : ∀ x ∈ (match step with
      | none => [] | some s => [s] : List GoNode), PlainStmt x = true := by
    cases step with
    | none => simp
    | some s => simpa using hstep s rfl
  have hbk : ∀ k, 0 < k → b < sg.blockid + k :=
    fun k hk => lt_of_le_of_lt hb (Nat.lt_add_of_pos_right hk)
  have d2 : sg.blockid + 2 ≠ b := Nat.ne_of_gt (hbk 2 (by decide))
  have d2' : b ≠ sg.blockid + 2 := Nat.ne_of_lt (hbk 2 (by decide))
  have hf2 : sg.blocks (sg.blockid + 2) = {} :=
    hfresh _ (Nat.lt_add_of_pos_right (by decide))
  have hmain := newloop_unfold f sg _ _ _ b n [.breakStmt i] kt kf rp left step
    (form_plain left f _ _ rp none hleft (by omega))
    (form_plain _ f _ _ _ none hss (by cases step <;> simp <;> omega))
    (form_break f _ _ _ _ i [] (by omega))
  refine ⟨_, hmain, ?_, ?_⟩ <;>
    simp +arith [newsucc_blocks_eq, newsucc_blocks_ne, newstmt_blocks_eq,
      newstmt_blocks_ne, appendStmts_blocks_eq, appendStmts_blocks_ne,
      newsucc_blockid, newsucc_branchid, newstmt_blockid, newstmt_branchid,
      appendStmts_blockid, appendStmts_branchid, d2, d2', hf2]

/-- a loop whose body is a single `continue`: the loop-body block gets
exactly one successor, an ALWAYS edge to the step block. -/
theorem newloop_continue_spec (fuel : Nat) (sg : CfgState) (b : BlockId)
    (n : GoNode) (i : Nat) (kt kf : BranchKind) (rp : BranchParent)
    (left : List GoNode) (step : Option GoNode)
    (hleft : ∀ x ∈ left, PlainStmt x = true)
    (hstep : ∀ s, step = some s → PlainStmt s = true)
    (hf : left.length + 3 < fuel)
    (hb : b ≤ sg.blockid)
    (hfresh : ∀ j, sg.blockid < j → sg.blocks j = {}) :
    ∃ sg', newloop fuel sg b n [.continueStmt i] kt kf rp left step = some sg' ∧
      (sg'.blocks (sg.blockid + 2)).stmts = [.continueStmt i] ∧
      (sg'.blocks (sg.blockid + 2)).succs =
        [⟨sg.branchid + 3, .always, some n, sg.blockid + 3⟩] := by
  cases fuel with
  | zero => exact absurd hf (by omega)
  | succ f =>
  have hss : ∀ x ∈ (match step with
      | none => [] | some s => [s] : List GoNode), PlainStmt x = true := by
    cases step with
    | none => simp
    | some s => simpa using hstep s rfl
  have hbk : ∀ k, 0 < k → b < sg.blockid + k :=
    fun k hk => lt_of_le_of_lt hb (Nat.lt_add_of_pos_right hk)
  have d2 : sg.blockid + 2 ≠ b := Nat.ne_of_gt (hbk 2 (by decide))
  have d2' : b ≠ sg.blockid + 2 := Nat.ne_of_lt (hbk 2 (by decide))
  have hf2 : sg.blocks (sg.blockid + 2) = {} :=
    hfresh _ (Nat.lt_add_of_pos_right (by decide))
  have hmain := newloop_unfold f sg _ _ _ b n [.continueStmt i] kt kf rp left
    step
    (form_plain left f _ _ rp none hleft (by omega))
    (form_plain _ f _ _ _ none hss (by cases step <;> simp <;> omega))
    (form_continue f _ _ _ _ i [] (by omega))
  refine ⟨_, hmain, ?_, ?_⟩ <;>
    simp +arith [newsucc_blocks_eq, newsucc_blocks_ne, newstmt_blocks_eq,
      newstmt_blocks_ne, appendStmts_blocks_eq, appendStmts_blocks_ne,
      newsucc_blockid, newsucc_branchid, newstmt_blockid, newstmt_branchid,
      appendStmts_blockid, appendStmts_branchid, d2, d2', hf2]

set_option maxHeartbeats 1000000

/-- **C6**: `newwhile`/`newfor` delegate to `newloop` with the
WHILETRUE/WHILEFALSE resp. FORTRUE/FORFALSE kinds (`newfor` passing its
step statement); for a loop lowered on a fresh state, `newloop` creates
the three blocks afterloop (`blockid+1`), lb (`blockid+2`) and sb
(`blockid+3`) and adds exactly the edges sb → lb (true kind),
sb → afterloop (false kind), current → lb (true kind), current →
afterloop (false kind) and the loop body's fall-through lb → sb
(ALWAYS); and inside the loop body a `break` adds exactly an ALWAYS edge
to afterloop while a `continue` adds exactly an ALWAYS edge to sb. -/
theorem c6_loop_cfg_blocks_and_edges :
    (∀ fuel sg b n body rp left,
      newwhile (fuel + 1) sg b n body rp left =
        newloop fuel sg b n (extractbody body) .whiletrue .whilefalse rp
          left none) ∧
    (∀ fuel sg b n body oneach rp left,
      newfor (fuel + 1) sg b n body oneach rp left =
        newloop fuel sg b n (extractbody body) .fortrue .forfalse rp left
          (some oneach)) ∧
    (∀ (fuel : Nat) (sg : CfgState) (b : BlockId) (n : GoNode)
      (body : List GoNode) (kt kf : BranchKind) (rp : BranchParent)
      (left : List GoNode) (step : Option GoNode),
      (∀ x ∈ body, PlainStmt x = true) →
      (∀ x ∈ left, PlainStmt x = true) →
      (∀ s, step = some s → PlainStmt s = true) →
      body.length + left.length + 3 < fuel →
      b ≤ sg.blockid →
      (∀ i, sg.blockid < i → sg.blocks i = {}) →
      ∃ sg', newloop fuel sg b n body kt kf rp left step = some sg' ∧
        sg'.blockid = sg.blockid + 3 ∧
        sg'.branchid = sg.branchid + 6 ∧
        (sg'.blocks b).stmts = (sg.blocks b).stmts ∧
        (sg'.blocks b).succs = (sg.blocks b).succs ++
          [⟨sg.branchid + 5, kt, some n, sg.blockid + 2⟩,
           ⟨sg.branchid + 6, kf, some n, sg.blockid + 1⟩] ∧
        (sg'.blocks (sg.blockid + 2)).stmts = body ∧
        (sg'.blocks (sg.blockid + 2)).succs =
          [⟨sg.branchid + 3, .always, some n, sg.blockid + 3⟩] ∧
        (sg'.blocks (sg.blockid + 3)).stmts = step.elim [] (fun s => [s]) ∧
        (sg'.blocks (sg.blockid + 3)).succs =
          [⟨sg.branchid + 2, kt, some n, sg.blockid + 2⟩,
           ⟨sg.branchid + 4, kf, some n, sg.blockid + 1⟩] ∧
        (sg'.blocks (sg.blockid + 1)).stmts = left ∧
        (sg'.blocks (sg.blockid + 1)).succs =
          [⟨sg.branchid + 1, rp.how, rp.node, rp.to'.getD BLOCKID_EXIT⟩]) ∧
    (∀ (fuel : Nat) (sg : CfgState) (b : BlockId) (n : GoNode) (i : Nat)
      (kt kf : BranchKind) (rp : BranchParent) (left : List GoNode)
      (step : Option GoNode),
      (∀ x ∈ left, PlainStmt x = true) →
      (∀ s, step = some s → PlainStmt s = true) →
      left.length + 3 < fuel →
      b ≤ sg.blockid →
      (∀ j, sg.blockid < j → sg.blocks j = {}) →
      ∃ sg', newloop fuel sg b n [.breakStmt i] kt kf rp left step =
          some sg' ∧
        (sg'.blocks (sg.blockid + 2)).stmts = [.breakStmt i] ∧
        (sg'.blocks (sg.blockid + 2)).succs =
          [⟨sg.branchid + 3, .always, some n, sg.blockid + 1⟩]) ∧
    (∀ (fuel : Nat) (sg : CfgState) (b : BlockId) (n : GoNode) (i : Nat)
      (kt kf : BranchKind) (rp : BranchParent) (left : List GoNode)
      (step : Option GoNode),
      (∀ x ∈ left, PlainStmt x = true) →
      (∀ s, step = some s → PlainStmt s = true) →
      left.length + 3 < fuel →
      b ≤ sg.blockid →
      (∀ j, sg.blockid < j → sg.blocks j = {}) →
      ∃ sg', newloop fuel sg b n [.continueStmt i] kt kf rp left step =
          some sg' ∧
        (sg'.blocks (sg.blockid + 2)).stmts = [.continueStmt i] ∧
        (sg'.blocks (sg.blockid + 2)).succs =
          [⟨sg.branchid + 3, .always, some n, sg.blockid + 3⟩]) :=
  ⟨fun _ _ _ _ _ _ _ => by rw [newwhile],
   fun _ _ _ _ _ _ _ _ => by rw [newfor],
   fun fuel sg b n body kt kf rp left step h1 h2 h3 h4 h5 h6 =>
     newloop_plain_spec fuel sg b n body kt kf rp left step h1 h2 h3 h4 h5 h6,
   fun fuel sg b n i kt kf rp left step h1 h2 h3 h4 h5 =>
     newloop_break_spec fuel sg b n i kt kf rp left step h1 h2 h3 h4 h5,
   fun fuel sg b n i kt kf rp left step h1 h2 h3 h4 h5 =>
     newloop_continue_spec fuel sg b n i kt kf rp left step h1 h2 h3 h4 h5⟩

/-- the loop lowering applied at a concrete while loop on a fresh state. -/
theorem c6_loop_cfg_blocks_and_edges_witness :
    ∃ sg', newloop 4 (⟨fun _ => {}, 1, 0⟩ : CfgState) 1
        (.whileStmt 1 (.boolLit 2 true) (.block 3 [])) [] .whiletrue
        .whilefalse ⟨some 1, none, .always⟩ [] none = some sg' ∧
      (sg'.blocks 4).succs =
        [⟨2, .whiletrue, some (.whileStmt 1 (.boolLit 2 true) (.block 3 [])),
          3⟩,
         ⟨4, .whilefalse, some (.whileStmt 1 (.boolLit 2 true) (.block 3 [])),
          2⟩] :=
  match c6_loop_cfg_blocks_and_edges.2.2.1 4 ⟨fun _ => {}, 1, 0⟩ 1
      (.whileStmt 1 (.boolLit 2 true) (.block 3 [])) [] .whiletrue
      .whilefalse ⟨some 1, none, .always⟩ [] none
      (by simp) (by simp) (fun s h => nomatch h) (by decide) (by decide)
      (fun _ _ => rfl) with
  | ⟨sg', h, _, _, _, _, _, _, _, hsucc, _⟩ => ⟨sg', h, hsucc⟩

theorem structFieldsMatches_refl (f : List (String × Ty))
    (h : ∀ x ∈ f, Ty.Matches x.2 x.2 = some true) :
    structFieldsMatches f f = some true := by
  induction f with
  | nil => simp [structFieldsMatches]
  | cons x xs ih =>
    have hx := h x (by simp)
    have hxs := fun y hy => h y (List.mem_cons_of_mem x hy)
    simp [structFieldsMatches, structFieldMatches, hx, ih hxs]

theorem typesLoop_refl (l : List Ty)
    (h : ∀ x ∈ l, Ty.Matches x x = some true) :
    typesLoop l l = some true := by
  induction l with
  | nil => simp [typesLoop]
  | cons x xs ih =>
    simp [typesLoop, h x (by simp),
      ih (fun y hy => h y (List.mem_cons_of_mem x hy))]

/-- reflexivity of `Matches` for types whose payloads agree with their
base enums. -/
theorem matches_refl_bound : ∀ (n : Nat), ∀ t : Ty, sizeOf t ≤ n →
    Ty.WF t → Ty.Matches t t = some true := by
  intro n
  induction n using Nat.strong_induction_on with
  | _ n ih =>
    intro t hle hwf
    obtain ⟨ty, p, a, e⟩ := t
    rw [Ty.Matches.eq_def]
    dsimp only []
    rw [if_neg (by simp)]
    cases ty <;> dsimp only []
    case strct =>
      cases e with
      | none => simp [Ty.WF] at hwf
      | some ex =>
        cases ex with
        | function r ps => simp [Ty.WF] at hwf
        | structFwd nm => simp [Ty.WF] at hwf
        | strct nm f =>
          simp only [Ty.WF] at hwf
          simp only [structMatches]
          rw [if_neg (by simp)]
          refine structFieldsMatches_refl f (fun x hx => ?_)
          have h1 := List.sizeOf_lt_of_mem hx
          obtain ⟨s, t'⟩ := x
          refine ih (sizeOf t') ?_ t' le_rfl (hwf (s, t') hx)
          simp at h1 hle ⊢
          omega
    case structFwd =>
      cases e with
      | none => simp [Ty.WF] at hwf
      | some ex =>
        cases ex with
        | function r ps => simp [Ty.WF] at hwf
        | strct nm f => simp [Ty.WF] at hwf
        | structFwd nm => simp
    case func =>
      cases e with
      | none => simp [Ty.WF] at hwf
      | some ex =>
        cases ex with
        | strct nm f => simp [Ty.WF] at hwf
        | structFwd nm => simp [Ty.WF] at hwf
        | function r ps =>
          simp only [Ty.WF] at hwf
          simp only [functionMatches]
          have hr : Ty.Matches r r = some true := by
            refine ih (sizeOf r) ?_ r le_rfl hwf.1
            simp at hle ⊢
            omega
          rw [hr]
          dsimp only []
          simp only [typesMatches]
          rw [if_neg (by simp)]
          refine typesLoop_refl ps (fun x hx => ?_)
          have h1 := List.sizeOf_lt_of_mem hx
          refine ih (sizeOf x) ?_ x le_rfl (hwf.2 x hx)
          simp at hle ⊢
          omega
    all_goals rfl

/-- `Matches` is not symmetric: `c4T1`'s fields are a proper prefix of
`c4T2`'s, so the forward direction succeeds while the reverse indexes the
shorter list out of range (a Go panic). -/
theorem c4_prefix_struct_matches_asymmetric :
    Ty.Matches c4T1 c4T2 = some true ∧ Ty.Matches c4T2 c4T1 = none ∧
    Ty.WF c4T1 ∧ Ty.WF c4T2 := by
  refine ⟨?_, ?_, ?_, ?_⟩ <;>
    simp [c4T1, c4T2, Ty.Matches, structMatches, structFieldsMatches,
      structFieldMatches, Ty.WF]

theorem structFieldsMatches_trans (fa : List (String × Ty)) :
    ∀ (fb fc : List (String × Ty)),
    (∀ x ∈ fa, ∀ y z : Ty, Ty.Matches x.2 y = some true →
      Ty.Matches y z = some true → Ty.Matches x.2 z = some true) →
    structFieldsMatches fa fb = some true →
    structFieldsMatches fb fc = some true →
    structFieldsMatches fa fc = some true := by
  induction fa with
  | nil => intro fb fc _ _ _; simp [structFieldsMatches]
  | cons x xs ih =>
    intro fb fc hel h1 h2
    cases fb with
    | nil => simp [structFieldsMatches] at h1
    | cons y ys =>
      cases fc with
      | nil => simp [structFieldsMatches] at h2
      | cons z zs =>
        simp only [structFieldsMatches] at h1 h2 ⊢
        split at h1
        · exact absurd h1 (by simp)
        · exact absurd h1 (by simp)
        · rename_i hxy
          split at h2
          · exact absurd h2 (by simp)
          · exact absurd h2 (by simp)
          · rename_i hyz
            simp only [structFieldMatches] at hxy hyz
            split at hxy
            · exact absurd hxy (by simp)
            · split at hyz
              · exact absurd hyz (by simp)
              · rename_i hn1 hn2
                have hxz : structFieldMatches x z = some true := by
                  simp only [structFieldMatches]
                  rw [if_neg (by
                    simp only [ne_eq, not_not] at hn1 hn2 ⊢
                    rw [hn1, hn2])]
                  exact hel x (by simp) y.2 z.2 hxy hyz
                rw [hxz]
                exact ih ys zs
                  (fun w hw => hel w (List.mem_cons_of_mem x hw)) h1 h2

theorem typesLoop_trans (la : List Ty) :
    ∀ (lb lc : List Ty),
    (∀ x ∈ la, ∀ y z : Ty, Ty.Matches x y = some true →
      Ty.Matches y z = some true → Ty.Matches x z = some true) →
    typesLoop la lb = some true → typesLoop lb lc = some true →
    typesLoop la lc = some true := by
  induction la with
  | nil => intro lb lc _ _ _; simp [typesLoop]
  | cons x xs ih =>
    intro lb lc hel h1 h2
    cases lb with
    | nil => simp [typesLoop] at h1
    | cons y ys =>
      cases lc with
      | nil => simp [typesLoop] at h2
      | cons z zs =>
        simp only [typesLoop] at h1 h2 ⊢
        split at h1
        · exact absurd h1 (by simp)
        · exact absurd h1 (by simp)
        · rename_i hxy
          split at h2
          · exact absurd h2 (by simp)
          · exact absurd h2 (by simp)
          · rename_i hyz
            rw [hel x (by simp) y z hxy hyz]
            exact ih ys zs
              (fun w hw => hel w (List.mem_cons_of_mem x hw)) h1 h2

/-- a successful struct/struct match forces both payloads to be `Struct`s
of the same name with matching field lists. -/
theorem matches_strct_payload (p a : Nat) (ea eb : Option TyExtra)
    (h : Ty.Matches (.mk .strct p a ea) (.mk .strct p a eb) = some true) :
    ∃ nm fa fb, ea = some (.strct nm fa) ∧ eb = some (.strct nm fb) ∧
      structFieldsMatches fa fb = some true := by
  rw [Ty.Matches.eq_def] at h
  dsimp only [] at h
  rw [if_neg (by simp)] at h
  cases ea with
  | none => simp at h
  | some xa =>
    cases xa with
    | function r ps => simp at h
    | structFwd nm => simp at h
    | strct nm fa =>
      cases eb with
      | none => simp at h
      | some xb =>
        cases xb with
        | function r ps => simp at h
        | structFwd nm2 => simp at h
        | strct nm2 fb =>
          dsimp only [] at h
          simp only [structMatches] at h
          split at h
          · exact absurd h (by simp)
          · rename_i hnm
            simp only [ne_eq, not_not] at hnm
            subst hnm
            exact ⟨nm, fa, fb, rfl, rfl, h⟩

/-- a successful forward/forward match forces both payloads to be
forward declarations of the same name. -/
theorem matches_fwd_payload (p a : Nat) (ea eb : Option TyExtra)
    (h : Ty.Matches (.mk .structFwd p a ea) (.mk .structFwd p a eb) =
      some true) :
    ∃ nm, ea = some (.structFwd nm) ∧ eb = some (.structFwd nm) := by
  rw [Ty.Matches.eq_def] at h
  dsimp only [] at h
  rw [if_neg (by simp)] at h
  cases ea with
  | none => simp at h
  | some xa =>
    cases xa with
    | function r ps => simp at h
    | strct nm fa => simp at h
    | structFwd nm =>
      cases eb with
      | none => simp at h
      | some xb =>
        cases xb with
        | function r ps => simp at h
        | strct nm2 fb => simp at h
        | structFwd nm2 =>
          dsimp only [] at h
          simp only [Option.some.injEq, decide_eq_true_eq] at h
          subst h
          exact ⟨nm, rfl, rfl⟩

/-- a successful function/function match forces both payloads to be
functions with matching returns and element-wise matching parameter
lists of equal length. -/
theorem matches_func_payload (p a : Nat) (ea eb : Option TyExtra)
    (h : Ty.Matches (.mk .func p a ea) (.mk .func p a eb) = some true) :
    ∃ ra psa rb psb, ea = some (.function ra psa) ∧
      eb = some (.function rb psb) ∧ Ty.Matches ra rb = some true ∧
      psa.length = psb.length ∧ typesLoop psa psb = some true := by
  rw [Ty.Matches.eq_def] at h
  dsimp only [] at h
  rw [if_neg (by simp)] at h
  cases ea with
  | none => simp at h
  | some xa =>
    cases xa with
    | strct nm fa => simp at h
    | structFwd nm => simp at h
    | function ra psa =>
      cases eb with
      | none => simp at h
      | some xb =>
        cases xb with
        | strct nm2 fb => simp at h
        | structFwd nm2 => simp at h
        | function rb psb =>
          dsimp only [] at h
          simp only [functionMatches] at h
          split at h
          · exact absurd h (by simp)
          · exact absurd h (by simp)
          · rename_i hr
            simp only [typesMatches] at h
            split at h
            · exact absurd h (by simp)
            · rename_i hlen
              simp only [ne_eq, not_not] at hlen
              exact ⟨ra, psa, rb, psb, rfl, rfl, hr, hlen, h⟩

/-- transitivity of `Matches` on successful matches. -/
theorem matches_trans_bound : ∀ (n : Nat), ∀ a b c : Ty, sizeOf a ≤ n →
    Ty.Matches a b = some true → Ty.Matches b c = some true →
    Ty.Matches a c = some true := by
  intro n
  induction n using Nat.strong_induction_on with
  | _ n ih =>
    intro a b c hle h1 h2
    obtain ⟨ta, pa, aa, ea⟩ := a
    obtain ⟨tb, pb, ab, eb⟩ := b
    obtain ⟨tc, pc, ac, ec⟩ := c
    obtain ⟨e1t, e1p, e1a⟩ := matches_true_fields_eq _ _ h1
    obtain ⟨e2t, e2p, e2a⟩ := matches_true_fields_eq _ _ h2
    simp only [Ty.type, Ty.pointerLevel, Ty.arrayLevel] at e1t e1p e1a
    simp only [Ty.type, Ty.pointerLevel, Ty.arrayLevel] at e2t e2p e2a
    subst e1t e1p e1a e2t e2p e2a
    rw [Ty.Matches.eq_def]
    dsimp only []
    rw [if_neg (by simp)]
    cases ta <;> dsimp only []
    case strct =>
      obtain ⟨nm, fa, fb, hea, heb, hf1⟩ := matches_strct_payload _ _ _ _ h1
      obtain ⟨nm2, fb2, fc, heb2, hec, hf2⟩ := matches_strct_payload _ _ _ _ h2
      rw [heb] at heb2
      injection heb2 with hx
      injection hx with hnm hfb
      subst hnm hfb hea hec
      dsimp only []
      simp only [structMatches]
      rw [if_neg (by simp)]
      refine structFieldsMatches_trans fa fb fc (fun x hx y z hxy hyz => ?_)
        hf1 hf2
      have hsz := List.sizeOf_lt_of_mem hx
      obtain ⟨s, t'⟩ := x
      refine ih (sizeOf t') ?_ t' y z le_rfl hxy hyz
      simp at hsz hle ⊢
      omega
    case structFwd =>
      obtain ⟨nm, hea, heb⟩ := matches_fwd_payload _ _ _ _ h1
      obtain ⟨nm2, heb2, hec⟩ := matches_fwd_payload _ _ _ _ h2
      rw [heb] at heb2
      injection heb2 with hx
      injection hx with hnm
      subst hnm hea hec
      dsimp only []
      simp
    case func =>
      obtain ⟨ra, psa, rb, psb, hea, heb, hr1, hl1, hp1⟩ :=
        matches_func_payload _ _ _ _ h1
      obtain ⟨rb2, psb2, rc, psc, heb2, hec, hr2, hl2, hp2⟩ :=
        matches_func_payload _ _ _ _ h2
      rw [heb] at heb2
      injection heb2 with hx
      injection hx with hrb hpsb
      subst hrb hpsb hea hec
      dsimp only []
      simp only [functionMatches]
      have hra : Ty.Matches ra rc = some true := by
        refine ih (sizeOf ra) ?_ ra rb rc le_rfl hr1 hr2
        simp at hle ⊢
        omega
      rw [hra]
      dsimp only []
      simp only [typesMatches]
      rw [if_neg (by simp [hl1, hl2])]
      refine typesLoop_trans psa psb psc (fun x hx y z hxy hyz => ?_) hp1 hp2
      have hsz := List.sizeOf_lt_of_mem hx
      refine ih (sizeOf x) ?_ x y z le_rfl hxy hyz
      simp at hle ⊢
      omega
    all_goals rfl

theorem structFieldsMatches_symm (fa : List (String × Ty)) :
    ∀ (fb : List (String × Ty)),
    (∀ x ∈ fa, ∀ (y : Ty) (r : Bool), Ty.Matches x.2 y = some true →
      Ty.Matches y x.2 = some r → r = true) →
    structFieldsMatches fa fb = some true →
    ∀ r, structFieldsMatches fb fa = some r → r = true := by
  induction fa with
  | nil =>
    intro fb _ _ r h2
    cases fb with
    | nil =>
      simp only [structFieldsMatches, Option.some.injEq] at h2
      exact h2.symm
    | cons y ys => simp [structFieldsMatches] at h2
  | cons x xs ih =>
    intro fb hel h1 r h2
    cases fb with
    | nil => simp [structFieldsMatches] at h1
    | cons y ys =>
      simp only [structFieldsMatches] at h1 h2
      split at h1
      · exact absurd h1 (by simp)
      · exact absurd h1 (by simp)
      · rename_i hxy
        simp only [structFieldMatches] at hxy
        split at hxy
        · exact absurd hxy (by simp)
        · rename_i hn
          simp only [ne_eq, not_not] at hn
          have hyx : structFieldMatches y x = Ty.Matches y.2 x.2 := by
            simp only [structFieldMatches]
            rw [if_neg (by simp [hn])]
          rw [hyx] at h2
          cases hm : Ty.Matches y.2 x.2 with
          | none => rw [hm] at h2; simp at h2
          | some b =>
            have hb : b = true := hel x (by simp) y.2 b hxy hm
            subst hb
            rw [hm] at h2
            dsimp only [] at h2
            exact ih ys (fun w hw => hel w (List.mem_cons_of_mem x hw))
              h1 r h2

theorem typesLoop_symm (la : List Ty) :
    ∀ (lb : List Ty),
    (∀ x ∈ la, ∀ (y : Ty) (r : Bool), Ty.Matches x y = some true →
      Ty.Matches y x = some r → r = true) →
    typesLoop la lb = some true →
    ∀ r, typesLoop lb la = some r → r = true := by
  induction la with
  | nil =>
    intro lb _ _ r h2
    cases lb with
    | nil =>
      simp only [typesLoop, Option.some.injEq] at h2
      exact h2.symm
    | cons y ys => simp [typesLoop] at h2
  | cons x xs ih =>
    intro lb hel h1 r h2
    cases lb with
    | nil => simp [typesLoop] at h1
    | cons y ys =>
      simp only [typesLoop] at h1 h2
      split at h1
      · exact absurd h1 (by simp)
      · exact absurd h1 (by simp)
      · rename_i hxy
        cases hm : Ty.Matches y x with
        | none => rw [hm] at h2; simp at h2
        | some b =>
          have hb : b = true := hel x (by simp) y b hxy hm
          subst hb
          rw [hm] at h2
          dsimp only [] at h2
          exact ih ys (fun w hw => hel w (List.mem_cons_of_mem x hw))
            h1 r h2

/-- symmetry of `Matches` wherever the reverse direction is defined. -/
theorem matches_symm_bound : ∀ (n : Nat), ∀ a b : Ty, sizeOf a ≤ n →
    Ty.Matches a b = some true → ∀ r, Ty.Matches b a = some r →
    r = true := by
  intro n
  induction n using Nat.strong_induction_on with
  | _ n ih =>
    intro a b hle h1 r h2
    obtain ⟨ta, pa, aa, ea⟩ := a
    obtain ⟨tb, pb, ab, eb⟩ := b
    obtain ⟨e1t, e1p, e1a⟩ := matches_true_fields_eq _ _ h1
    simp only [Ty.type, Ty.pointerLevel, Ty.arrayLevel] at e1t e1p e1a
    subst e1t e1p e1a
    rw [Ty.Matches.eq_def] at h2
    dsimp only [] at h2
    rw [if_neg (by simp)] at h2
    cases ta <;> dsimp only [] at h2
    case strct =>
      obtain ⟨nm, fa, fb, hea, heb, hf1⟩ := matches_strct_payload _ _ _ _ h1
      subst hea heb
      dsimp only [] at h2
      simp only [structMatches] at h2
      rw [if_neg (by simp)] at h2
      refine structFieldsMatches_symm fa fb (fun x hx y rx hxy hyx => ?_)
        hf1 r h2
      have hsz := List.sizeOf_lt_of_mem hx
      obtain ⟨s, t'⟩ := x
      refine ih (sizeOf t') ?_ t' y le_rfl hxy rx hyx
      simp at hsz hle ⊢
      omega
    case structFwd =>
      obtain ⟨nm, hea, heb⟩ := matches_fwd_payload _ _ _ _ h1
      subst hea heb
      dsimp only [] at h2
      simp at h2
      first
      | exact h2
      | exact h2.symm
    case func =>
      obtain ⟨ra, psa, rb, psb, hea, heb, hr1, hl1, hp1⟩ :=
        matches_func_payload _ _ _ _ h1
      subst hea heb
      dsimp only [] at h2
      simp only [functionMatches] at h2
      cases hm : Ty.Matches rb ra with
      | none => rw [hm] at h2; simp at h2
      | some b2 =>
        have hb2 : b2 = true := by
          refine ih (sizeOf ra) ?_ ra rb le_rfl hr1 b2 hm
          simp at hle ⊢
          omega
        subst hb2
        rw [hm] at h2
        dsimp only [] at h2
        simp only [typesMatches] at h2
        rw [if_neg (by simp [hl1])] at h2
        refine typesLoop_symm psa psb (fun x hx y rx hxy hyx => ?_) hp1 r h2
        have hsz := List.sizeOf_lt_of_mem hx
        refine ih (sizeOf x) ?_ x y le_rfl hxy rx hyx
        simp at hle ⊢
        omega
    all_goals
      simp only [Option.some.injEq] at h2
      first
      | exact h2
      | exact h2.symm

/-- **C4** (amended): `Matches` is structural in the base enum and the
pointer/array levels; a successful struct (resp. function) match forces
same-name `Struct` payloads with field-wise matching fields (resp.
`Function` payloads with matching returns and parameter lists); it is
reflexive on payload-well-formed types and transitive on successful
matches, and symmetric only in the weak sense that a defined reverse
match of a successful match is `true` — the reverse direction of a
successful match may be undefined (a panic), as the prefix
counterexample shows. -/
theorem c4_matches_structural_refl_trans_symm :
    (∀ a b : Ty, Ty.Matches a b = some true →
      a.type = b.type ∧ a.pointerLevel = b.pointerLevel ∧
        a.arrayLevel = b.arrayLevel) ∧
    (∀ p a ea eb, Ty.Matches (.mk .strct p a ea) (.mk .strct p a eb) =
        some true →
      ∃ nm fa fb, ea = some (.strct nm fa) ∧ eb = some (.strct nm fb) ∧
        structFieldsMatches fa fb = some true) ∧
    (∀ p a ea eb, Ty.Matches (.mk .func p a ea) (.mk .func p a eb) =
        some true →
      ∃ ra psa rb psb, ea = some (.function ra psa) ∧
        eb = some (.function rb psb) ∧ Ty.Matches ra rb = some true ∧
        psa.length = psb.length ∧ typesLoop psa psb = some true) ∧
    (∀ t : Ty, Ty.WF t → Ty.Matches t t = some true) ∧
    (∀ a b c : Ty, Ty.Matches a b = some true →
      Ty.Matches b c = some true → Ty.Matches a c = some true) ∧
    (∀ (a b : Ty) (r : Bool), Ty.Matches a b = some true →
      Ty.Matches b a = some r → r = true) :=
  ⟨matches_true_fields_eq,
   matches_strct_payload,
   matches_func_payload,
   fun t h => matches_refl_bound (sizeOf t) t le_rfl h,
   fun a b c h1 h2 => matches_trans_bound (sizeOf a) a b c le_rfl h1 h2,
   fun a b r h1 h2 => matches_symm_bound (sizeOf a) a b le_rfl h1 r h2⟩

/-- reflexivity applied at the concrete struct type `c4T1`. -/
theorem c4_matches_structural_refl_trans_symm_witness :
    Ty.Matches c4T1 c4T1 = some true :=
  c4_matches_structural_refl_trans_symm.2.2.2.1 c4T1
    (by simp [c4T1, Ty.WF])

theorem setTern_lookup_eq (m : TernMap) (k v : Nat) :
    (setTern m k v).lookup k = some v := by
  induction m with
  | nil => simp [setTern]
  | cons e rest ih =>
    obtain ⟨k', v'⟩ := e
    simp only [setTern]
    by_cases h : k' = k
    · subst h; simp [List.lookup]
    · rw [if_neg h]
      have hb : (k == k') = false := by
        simp [Ne.symm h]
      simp [List.lookup, hb, ih]

theorem setTern_lookup_ne (m : TernMap) (k v k' : Nat) (h : k' ≠ k) :
    (setTern m k v).lookup k' = m.lookup k' := by
  have hb : (k' == k) = false := by simp [h]
  induction m with
  | nil => simp [setTern, List.lookup, hb]
  | cons e rest ih =>
    obtain ⟨k2, v2⟩ := e
    simp only [setTern]
    by_cases h2 : k2 = k
    · subst h2
      simp [List.lookup, hb]
    · rw [if_neg h2]
      by_cases h3 : k' = k2
      · subst h3; simp [List.lookup]
      · have hb3 : (k' == k2) = false := by simp [h3]
        simp [List.lookup, hb3, ih]

theorem TravFacts.comp {ids1 ps1 vs1 ids2 ps2 vs2 : List Nat}
    {ht : Nat → Bool} {m m1 m' : TernMap}
    (h1 : TravFacts ids1 ps1 vs1 ht m m1)
    (h2 : TravFacts ids2 ps2 vs2 ht m1 m')
    (hd : ∀ k ∈ ids1, k ∉ ids2) :
    TravFacts (ids1 ++ ids2) (ps1 ++ ps2) (vs1 ++ vs2) ht m m' := by
  obtain ⟨f1, p1, v1, sp1, sv1⟩ := h1
  obtain ⟨f2, p2, v2, sp2, sv2⟩ := h2
  refine ⟨?_, ?_, ?_, ?_, ?_⟩
  · intro k hk
    simp only [List.mem_append, not_or] at hk
    rw [f2 k hk.2, f1 k hk.1]
  · intro k hk
    rcases List.mem_append.1 hk with hk1 | hk2
    · rw [f2 k (hd k (sp1 k hk1)), p1 k hk1]
    · exact p2 k hk2
  · intro k hk hnp
    simp only [List.mem_append, not_or] at hnp
    rcases List.mem_append.1 hk with hk1 | hk2
    · rw [f2 k (hd k (sv1 k hk1)), v1 k hk1 hnp.1]
    · exact v2 k hk2 hnp.2
  · intro k hk
    rcases List.mem_append.1 hk with hk1 | hk2
    · exact List.mem_append.2 (Or.inl (sp1 k hk1))
    · exact List.mem_append.2 (Or.inr (sp2 k hk2))
  · intro k hk
    rcases List.mem_append.1 hk with hk1 | hk2
    · exact List.mem_append.2 (Or.inl (sv1 k hk1))
    · exact List.mem_append.2 (Or.inr (sv2 k hk2))

theorem TravFacts.mono {ids ps vs : List Nat} {ht : Nat → Bool}
    {m m' : TernMap} {ids' : List Nat}
    (h : TravFacts ids ps vs ht m m')
    (hsub : ∀ k ∈ ids, k ∈ ids')
    (hsub' : ∀ k, k ∉ ids' → k ∉ ids) :
    TravFacts ids' ps vs ht m m' := by
  obtain ⟨f, p, v, sp, sv⟩ := h
  exact ⟨fun k hk => f k (hsub' k hk), p, v,
    fun k hk => hsub k (sp k hk), fun k hk => hsub k (sv k hk)⟩

theorem TravFacts.skip (ids : List Nat) (ht : Nat → Bool) (m : TernMap) :
    TravFacts ids [] [] ht m m := by
  refine ⟨fun _ _ => rfl, ?_, ?_, ?_, ?_⟩ <;> intro k hk <;> simp at hk

theorem nodup_cons_append (i : Nat) (l r : List Nat)
    (h : (i :: (l ++ r)).Nodup) :
    l.Nodup ∧ r.Nodup ∧ (∀ k ∈ l, k ∉ r) ∧ i ∉ l ∧ i ∉ r := by
  simp only [List.nodup_cons, List.nodup_append, List.mem_append,
    not_or, List.Disjoint] at h
  exact ⟨h.2.1, h.2.2.1, fun k hk hk2 => h.2.2.2 hk hk2, h.1.1, h.1.2⟩

theorem TravFacts.cons_widen {ids ps vs : List Nat} {ht : Nat → Bool}
    {m m' : TernMap} (i : Nat) (h : TravFacts ids ps vs ht m m')
    (hi : i ∉ ids) :
    TravFacts (i :: ids) ps vs ht m m' ∧ i ∉ ps := by
  refine ⟨h.mono (fun k hk => List.mem_cons_of_mem i hk)
    (fun k hk => fun hmem => hk (List.mem_cons_of_mem i hmem)), ?_⟩
  intro hip
  exact hi (h.2.2.2.1 i hip)

theorem TravFacts.comp_cons {ids1 ps1 vs1 ids2 ps2 vs2 : List Nat}
    {ht : Nat → Bool} {m m1 m' : TernMap} (i : Nat)
    (h1 : TravFacts ids1 ps1 vs1 ht m m1)
    (h2 : TravFacts ids2 ps2 vs2 ht m1 m')
    (hn : (i :: (ids1 ++ ids2)).Nodup) :
    TravFacts (i :: (ids1 ++ ids2)) (ps1 ++ ps2) (vs1 ++ vs2) ht m m' ∧
    i ∉ ps1 ++ ps2 := by
  obtain ⟨_, _, hd, hi1, hi2⟩ := nodup_cons_append i ids1 ids2 hn
  exact (h1.comp h2 hd).cons_widen i (by simp [hi1, hi2])

theorem checkTernOpt_facts (ht : Nat → Bool) (o : Option GoNode)
    (hel : ∀ x, o = some x → TernP ht x) :
    ∀ m m', checkTernOpt ht o m = some m' → (nodeIdsOpt o).Nodup →
    TravFacts (nodeIdsOpt o) (ternPairIdsOpt ht o) (ternValsIdsOpt o)
      ht m m' := by
  cases o with
  | none =>
    intro m m' h _
    simp only [checkTernOpt, Option.some.injEq] at h
    subst h
    exact TravFacts.skip [] ht m
  | some x =>
    intro m m' h hn
    exact ((hel x rfl) m m' h hn).1

theorem checkTernList_facts (ht : Nat → Bool) (vs : List GoNode)
    (hel : ∀ x ∈ vs, TernP ht x) :
    ∀ m m', checkTernList ht vs m = some m' → (nodeIdsList vs).Nodup →
    TravFacts (nodeIdsList vs) (ternPairIdsList ht vs)
      (ternValsIdsList vs) ht m m' := by
  induction vs with
  | nil =>
    intro m m' h _
    simp only [checkTernList, Option.some.injEq] at h
    subst h
    exact TravFacts.skip [] ht m
  | cons x xs ih =>
    intro m m' h hn
    simp only [checkTernList] at h
    cases hx : checkTern ht x m with
    | none => rw [hx] at h; simp at h
    | some m2 =>
      rw [hx] at h
      dsimp only [] at h
      simp only [nodeIdsList] at hn ⊢
      simp only [ternPairIdsList, ternValsIdsList]
      have hparts := List.nodup_append.1 hn
      have hfx := (hel x (by simp) m m2 hx hparts.1).1
      have hfxs := ih (fun y hy => hel y (by simp [hy])) m2 m' h hparts.2.1
      exact hfx.comp hfxs (fun k hk hk2 => hparts.2.2 hk hk2)

theorem travfacts_ternvals {ids1 ps1 vs1 ids2 ps2 vs2 : List Nat}
    {ht : Nat → Bool} {m m1 m2 : TernMap} (i : Nat)
    (h1 : TravFacts ids1 ps1 vs1 ht m m1)
    (h2 : TravFacts ids2 ps2 vs2 ht m1 m2)
    (hn : (i :: (ids1 ++ ids2)).Nodup) :
    TravFacts (i :: (ids1 ++ ids2)) (ps1 ++ ps2) (i :: (vs1 ++ vs2)) ht
      m (markTernaryVal m2 i) ∧ i ∉ ps1 ++ ps2 := by
  obtain ⟨_, _, hd, hi1, hi2⟩ := nodup_cons_append i ids1 ids2 hn
  have base := h1.comp h2 hd
  obtain ⟨f, p, v, sp, sv⟩ := base
  have hiids : i ∉ ids1 ++ ids2 := by simp [hi1, hi2]
  have hips : i ∉ ps1 ++ ps2 := fun hip => hiids (sp i hip)
  refine ⟨⟨?_, ?_, ?_, ?_, ?_⟩, hips⟩
  · intro k hk
    simp only [List.mem_cons, not_or] at hk
    rw [markTernaryVal, setTern_lookup_ne _ _ _ _ hk.1, f k hk.2]
  · intro k hk
    have hki : k ≠ i := fun he => hips (he ▸ hk)
    rw [markTernaryVal, setTern_lookup_ne _ _ _ _ hki, p k hk]
  · intro k hk hkp
    rcases List.mem_cons.1 hk with he | hk2
    · subst he
      rw [markTernaryVal, setTern_lookup_eq]
    · have hki : k ≠ i := fun he => hiids (he ▸ sv k hk2)
      rw [markTernaryVal, setTern_lookup_ne _ _ _ _ hki, v k hk2 hkp]
  · exact fun k hk => List.mem_cons_of_mem i (sp k hk)
  · intro k hk
    rcases List.mem_cons.1 hk with he | hk2
    · exact he ▸ List.mem_cons_self i _
    · exact List.mem_cons_of_mem i (sv k hk2)

theorem terncond_extra_nil (ht : Nat → Bool) (li : Nat) (r : GoNode)
    (hshape : ∀ rid a b, r ≠ GoNode.opBinary rid .ternaryvals a b) :
    terncondExtra ht li r = [] := by
  simp only [terncondExtra]

theorem terncond_noop (ht : Nat → Bool) (m : TernMap) (l r : GoNode)
    (hshape : ∀ rid a b, r ≠ GoNode.opBinary rid .ternaryvals a b) :
    checkTernaryCond ht m l r = m := by
  cases r <;> first
    | (simp [checkTernaryCond]; done)
    | (rename_i rid op a b
       cases op <;> first
         | (simp [checkTernaryCond]; done)
         | exact absurd rfl (hshape rid a b))

theorem travfacts_terncond (i : Nat) (ht : Nat → Bool) (l r : GoNode)
    {m m1 m2 : TernMap}
    (h1 : TravFacts (nodeIds l) (ternPairIds ht l) (ternValsIds l) ht m m1)
    (h2 : TravFacts (nodeIds r) (ternPairIds ht r) (ternValsIds r) ht m1 m2)
    (hroot2 : nodeId r ∉ ternPairIds ht r)
    (hn : (i :: (nodeIds l ++ nodeIds r)).Nodup) :
    TravFacts (i :: (nodeIds l ++ nodeIds r))
      (ternPairIds ht l ++ ternPairIds ht r ++
        terncondExtra ht (nodeId l) r)
      (ternValsIds l ++ ternValsIds r) ht m
      (checkTernaryCond ht m2 l r) ∧
    i ∉ ternPairIds ht l ++ ternPairIds ht r ++
      terncondExtra ht (nodeId l) r := by
  obtain ⟨_, _, hd, hi1, hi2⟩ := nodup_cons_append i (nodeIds l) (nodeIds r) hn
  have base := h1.comp h2 hd
  have hiids : i ∉ nodeIds l ++ nodeIds r := by simp [hi1, hi2]
  by_cases hshape : ∃ rid a b, r = GoNode.opBinary rid .ternaryvals a b
  case neg =>
    have hsh : ∀ rid a b, r ≠ GoNode.opBinary rid .ternaryvals a b :=
      fun rid a b he => hshape ⟨rid, a, b, he⟩
    rw [terncond_extra_nil ht (nodeId l) r hsh, terncond_noop ht m2 l r hsh,
      List.append_nil]
    exact base.cons_widen i hiids
  case pos =>
    obtain ⟨rid, a, b, rfl⟩ := hshape
    simp only [terncondExtra]
    by_cases hht : ht (nodeId l) = true
    case neg =>
      have hht' : ht (nodeId l) = false := by
        cases hv : ht (nodeId l)
        · rfl
        · exact absurd hv hht
      rw [hht']
      have hC : checkTernaryCond ht m2 l (.opBinary rid .ternaryvals a b)
          = m2 := by
        simp [checkTernaryCond, hht']
      rw [hC]
      rw [if_neg (by simp [hht']), List.append_nil]
      exact base.cons_widen i hiids
    case pos =>
      rw [if_pos hht]
      have hrmem : rid ∈ nodeIds (.opBinary rid .ternaryvals a b) := by
        simp [nodeIds]
      have hrnp : rid ∉ ternPairIds ht l ++
          ternPairIds ht (.opBinary rid .ternaryvals a b) := by
        simp only [List.mem_append, not_or]
        refine ⟨fun hp => ?_, hroot2⟩
        exact hd rid (h1.2.2.2.1 rid hp) hrmem
      have hrv : rid ∈ ternValsIds l ++
          ternValsIds (.opBinary rid .ternaryvals a b) := by
        simp [ternValsIds]
      have hlook : m2.lookup rid = some 1 := base.2.2.1 rid hrv hrnp
      have hC : checkTernaryCond ht m2 l (.opBinary rid .ternaryvals a b)
          = setTern m2 rid 2 := by
        simp only [checkTernaryCond, hht, not_true_eq_false, if_false]
        rw [hlook]
      rw [hC]
      obtain ⟨f, p, v, sp, sv⟩ := base
      have hips : i ∉ ternPairIds ht l ++
          ternPairIds ht (.opBinary rid .ternaryvals a b) :=
        fun hip => hiids (sp i hip)
      have hirid : i ≠ rid :=
        fun he => hi2 (he ▸ hrmem)
      refine ⟨⟨?_, ?_, ?_, ?_, ?_⟩, ?_⟩
      · intro k hk
        simp only [List.mem_cons, not_or] at hk
        have hkr : k ≠ rid := fun he => hk.2 (by
          rw [he]
          exact List.mem_append.2 (Or.inr hrmem))
        rw [setTern_lookup_ne _ _ _ _ hkr, f k hk.2]
      · intro k hk
        rcases List.mem_append.1 hk with hk1 | hk2
        · have hkr : k ≠ rid := fun he => (he ▸ hrnp) hk1
          rw [setTern_lookup_ne _ _ _ _ hkr, p k hk1]
        · simp only [List.mem_singleton] at hk2
          subst hk2
          rw [setTern_lookup_eq]
      · intro k hk hkp
        simp only [List.mem_append, not_or] at hkp
        have hkr : k ≠ rid := fun he => hkp.2 (by simp [he])
        rw [setTern_lookup_ne _ _ _ _ hkr,
          v k hk (by simp only [List.mem_append, not_or]; exact hkp.1)]
      · intro k hk
        rcases List.mem_append.1 hk with hk1 | hk2
        · exact List.mem_cons_of_mem i (sp k hk1)
        · simp only [List.mem_singleton] at hk2
          rw [hk2]
          exact List.mem_cons_of_mem i (List.mem_append.2 (Or.inr hrmem))
      · exact fun k hk => List.mem_cons_of_mem i (sv k hk)
      · simp only [List.mem_append, not_or]
        refine ⟨?_, by simp [hirid]⟩
        simpa only [List.mem_append, not_or] using hips

theorem TravFacts.comp_cons_swap {ids1 ps1 vs1 ids2 ps2 vs2 : List Nat}
    {ht : Nat → Bool} {m m1 m' : TernMap} (i : Nat)
    (h1 : TravFacts ids1 ps1 vs1 ht m m1)
    (h2 : TravFacts ids2 ps2 vs2 ht m1 m')
    (hn : (i :: (ids2 ++ ids1)).Nodup) :
    TravFacts (i :: (ids2 ++ ids1)) (ps1 ++ ps2) (vs1 ++ vs2) ht m m' ∧
    i ∉ ps1 ++ ps2 := by
  obtain ⟨_, _, hd21, hi2, hi1⟩ := nodup_cons_append i ids2 ids1 hn
  have hcomp := h1.comp h2 (fun k hk1 hk2 => hd21 k hk2 hk1)
  refine ⟨hcomp.mono ?_ ?_, ?_⟩
  · intro k hk
    simp only [List.mem_append] at hk
    simp only [List.mem_cons, List.mem_append]
    tauto
  · intro k hk
    simp only [List.mem_cons, List.mem_append, not_or] at hk
    simp only [List.mem_append, not_or]
    tauto
  · intro hip
    rcases List.mem_append.1 hip with hp1 | hp2
    · exact hi1 (h1.2.2.2.1 i hp1)
    · exact hi2 (h2.2.2.2.1 i hp2)

theorem TravFacts.comp3_cons {ids1 ps1 vs1 ids2 ps2 vs2 ids3 ps3 vs3 :
    List Nat} {ht : Nat → Bool} {m m1 m2 m' : TernMap} (i : Nat)
    (h1 : TravFacts ids1 ps1 vs1 ht m m1)
    (h2 : TravFacts ids2 ps2 vs2 ht m1 m2)
    (h3 : TravFacts ids3 ps3 vs3 ht m2 m')
    (hn : (i :: (ids1 ++ ids2 ++ ids3)).Nodup) :
    TravFacts (i :: (ids1 ++ ids2 ++ ids3)) (ps1 ++ ps2 ++ ps3)
      (vs1 ++ vs2 ++ vs3) ht m m' ∧ i ∉ ps1 ++ ps2 ++ ps3 := by
  obtain ⟨hn12, _, hd, hi12, hi3⟩ :=
    nodup_cons_append i (ids1 ++ ids2) ids3 hn
  have hp12 := List.nodup_append.1 hn12
  have hcomp12 := h1.comp h2 (fun k hk1 hk2 => hp12.2.2 hk1 hk2)
  exact TravFacts.comp_cons i hcomp12 h3 hn

theorem TravFacts.comp4_cons {ids1 ps1 vs1 ids2 ps2 vs2 ids3 ps3 vs3
    ids4 ps4 vs4 : List Nat} {ht : Nat → Bool} {m m1 m2 m3 m' : TernMap}
    (i : Nat)
    (h1 : TravFacts ids1 ps1 vs1 ht m m1)
    (h2 : TravFacts ids2 ps2 vs2 ht m1 m2)
    (h3 : TravFacts ids3 ps3 vs3 ht m2 m3)
    (h4 : TravFacts ids4 ps4 vs4 ht m3 m')
    (hn : (i :: (ids1 ++ ids2 ++ ids3 ++ ids4)).Nodup) :
    TravFacts (i :: (ids1 ++ ids2 ++ ids3 ++ ids4))
      (ps1 ++ ps2 ++ ps3 ++ ps4) (vs1 ++ vs2 ++ vs3 ++ vs4) ht
      m m' ∧ i ∉ ps1 ++ ps2 ++ ps3 ++ ps4 := by
  obtain ⟨hn123, _, hd, hi123, hi4⟩ :=
    nodup_cons_append i (ids1 ++ ids2 ++ ids3) ids4 hn
  have hp123 := List.nodup_append.1 hn123
  have hp12 := List.nodup_append.1 hp123.1
  have hcomp12 := h1.comp h2 (fun k hk1 hk2 => hp12.2.2 hk1 hk2)
  have hcomp123 := hcomp12.comp h3 (fun k hk12 hk3 => hp123.2.2 hk12 hk3)
  exact TravFacts.comp_cons i hcomp123 h4 hn

/-- the traversal invariant: after a successful `check` traversal over a
tree with globally distinct node ids, the `ternaryvals` map is untouched
outside the tree's ids, every incremented pair reads 2 and every marked
but unpaired ':' node reads 1. -/
theorem checkTern_facts : ∀ (N : Nat) (ht : Nat → Bool) (n : GoNode),
    sizeOf n ≤ N → TernP ht n := by
  intro N
  induction N using Nat.strong_induction_on with
  | _ N ih =>
    intro ht n hle m m' h hn
    cases n with
    | var i v =>
      simp only [checkTern, Option.some.injEq] at h
      subst h
      refine ⟨?_, ?_⟩
      · simp only [nodeIds, ternPairIds, ternValsIds]
        exact TravFacts.skip _ ht m
      · simp [ternPairIds]
    | numeric i v b =>
      simp only [checkTern, Option.some.injEq] at h
      subst h
      refine ⟨?_, ?_⟩
      · simp only [nodeIds, ternPairIds, ternValsIds]
        exact TravFacts.skip _ ht m
      · simp [ternPairIds]
    | strLit i v =>
      simp only [checkTern, Option.some.injEq] at h
      subst h
      refine ⟨?_, ?_⟩
      · simp only [nodeIds, ternPairIds, ternValsIds]
        exact TravFacts.skip _ ht m
      · simp [ternPairIds]
    | chrLit i v =>
      simp only [checkTern, Option.some.injEq] at h
      subst h
      refine ⟨?_, ?_⟩
      · simp only [nodeIds, ternPairIds, ternValsIds]
        exact TravFacts.skip _ ht m
      · simp [ternPairIds]
    | boolLit i v =>
      simp only [checkTern, Option.some.injEq] at h
      subst h
      refine ⟨?_, ?_⟩
      · simp only [nodeIds, ternPairIds, ternValsIds]
        exact TravFacts.skip _ ht m
      · simp [ternPairIds]
    | nullLit i =>
      simp only [checkTern, Option.some.injEq] at h
      subst h
      refine ⟨?_, ?_⟩
      · simp only [nodeIds, ternPairIds, ternValsIds]
        exact TravFacts.skip _ ht m
      · simp [ternPairIds]
    | varDecl i k nm =>
      simp only [checkTern, Option.some.injEq] at h
      subst h
      refine ⟨?_, ?_⟩
      · simp only [nodeIds, ternPairIds, ternValsIds]
        exact TravFacts.skip _ ht m
      · simp [ternPairIds]
    | breakStmt i =>
      simp only [checkTern, Option.some.injEq] at h
      subst h
      refine ⟨?_, ?_⟩
      · simp only [nodeIds, ternPairIds, ternValsIds]
        exact TravFacts.skip _ ht m
      · simp [ternPairIds]
    | continueStmt i =>
      simp only [checkTern, Option.some.injEq] at h
      subst h
      refine ⟨?_, ?_⟩
      · simp only [nodeIds, ternPairIds, ternValsIds]
        exact TravFacts.skip _ ht m
      · simp [ternPairIds]
    | alloc i k =>
      simp only [checkTern, Option.some.injEq] at h
      subst h
      refine ⟨?_, ?_⟩
      · simp only [nodeIds, ternPairIds, ternValsIds]
        exact TravFacts.skip _ ht m
      · simp [ternPairIds]
    | kindNode i k =>
      simp only [checkTern, Option.some.injEq] at h
      subst h
      refine ⟨?_, ?_⟩
      · simp only [nodeIds, ternPairIds, ternValsIds]
        exact TravFacts.skip _ ht m
      · simp [ternPairIds]
    | opUnary i uop operand =>
      simp only [checkTern] at h
      simp only [nodeIds, nodeId, ternPairIds, ternValsIds] at hn ⊢
      have hcn := List.nodup_cons.1 hn
      have hf := ih (sizeOf operand) (by simp at hle; omega) ht operand
        le_rfl m m' h hcn.2
      exact hf.1.cons_widen i hcn.1
    | assert i e =>
      simp only [checkTern] at h
      simp only [nodeIds, nodeId, ternPairIds, ternValsIds] at hn ⊢
      have hcn := List.nodup_cons.1 hn
      have hf := ih (sizeOf e) (by simp at hle; omega) ht e
        le_rfl m m' h hcn.2
      exact hf.1.cons_widen i hcn.1
    | cast i k w =>
      simp only [checkTern] at h
      simp only [nodeIds, nodeId, ternPairIds, ternValsIds] at hn ⊢
      have hcn := List.nodup_cons.1 hn
      have hf := ih (sizeOf w) (by simp at hle; omega) ht w
        le_rfl m m' h hcn.2
      exact hf.1.cons_widen i hcn.1
    | allocArray i k e =>
      simp only [checkTern] at h
      simp only [nodeIds, nodeId, ternPairIds, ternValsIds] at hn ⊢
      have hcn := List.nodup_cons.1 hn
      have hf := ih (sizeOf e) (by simp at hle; omega) ht e
        le_rfl m m' h hcn.2
      exact hf.1.cons_widen i hcn.1
    | ret i e =>
      simp only [checkTern] at h
      simp only [nodeIds, nodeId, ternPairIds, ternValsIds] at hn ⊢
      have hcn := List.nodup_cons.1 hn
      have hf := checkTernOpt_facts ht e (fun x hx => ih (sizeOf x)
        (by subst hx; simp at hle; omega) ht x le_rfl) m m' h hcn.2
      exact hf.cons_widen i hcn.1
    | block i vs =>
      simp only [checkTern] at h
      simp only [nodeIds, nodeId, ternPairIds, ternValsIds] at hn ⊢
      have hcn := List.nodup_cons.1 hn
      have hf := checkTernList_facts ht vs (fun x hx => ih (sizeOf x)
        (by
          have hsx := List.sizeOf_lt_of_mem hx
          simp at hle
          omega) ht x le_rfl) m m' h hcn.2
      exact hf.cons_widen i hcn.1
    | args i vs =>
      simp only [checkTern] at h
      simp only [nodeIds, nodeId, ternPairIds, ternValsIds] at hn ⊢
      have hcn := List.nodup_cons.1 hn
      have hf := checkTernList_facts ht vs (fun x hx => ih (sizeOf x)
        (by
          have hsx := List.sizeOf_lt_of_mem hx
          simp at hle
          omega) ht x le_rfl) m m' h hcn.2
      exact hf.cons_widen i hcn.1
    | errorStmt i e =>
      simp only [checkTern] at h
      first
      | exact absurd h (by simp)
      | (cases hx : checkTern ht e m <;> rw [hx] at h <;> simp at h)
    | whileStmt i cond body =>
      simp only [checkTern] at h
      cases hc : checkTern ht cond m with
      | none => rw [hc] at h; simp at h
      | some m1 =>
        rw [hc] at h
        dsimp only [] at h
        simp only [nodeIds, nodeId, ternPairIds, ternValsIds] at hn ⊢
        have hparts := nodup_cons_append i (nodeIds cond) (nodeIds body) hn
        have hf1 := ih (sizeOf cond) (by simp at hle; omega) ht cond
          le_rfl m m1 hc hparts.1
        have hf2 := ih (sizeOf body) (by simp at hle; omega) ht body
          le_rfl m1 m' h hparts.2.1
        exact TravFacts.comp_cons i hf1.1 hf2.1 hn
    | opAssign i aop target what =>
      simp only [checkTern] at h
      cases hw : checkTernOpt ht what m with
      | none => rw [hw] at h; simp at h
      | some m1 =>
        rw [hw] at h
        dsimp only [] at h
        simp only [nodeIds, nodeId, ternPairIds, ternValsIds] at hn ⊢
        have hparts := nodup_cons_append i (nodeIds target)
          (nodeIdsOpt what) hn
        have hfw := checkTernOpt_facts ht what (fun x hx => ih (sizeOf x)
          (by subst hx; simp at hle; omega) ht x le_rfl) m m1 hw
          hparts.2.1
        have hft := ih (sizeOf target) (by simp at hle; omega) ht target
          le_rfl m1 m' h hparts.1
        exact TravFacts.comp_cons_swap i hfw hft.1 hn
    | ifStmt i cond vtrue vfalse =>
      simp only [checkTern] at h
      cases hc : checkTern ht cond m with
      | none => rw [hc] at h; simp at h
      | some m1 =>
        rw [hc] at h
        dsimp only [] at h
        cases hv : checkTern ht vtrue m1 with
        | none => rw [hv] at h; simp at h
        | some m2 =>
          rw [hv] at h
          dsimp only [] at h
          simp only [nodeIds, nodeId, ternPairIds, ternValsIds] at hn ⊢
          have hparts := nodup_cons_append i
            (nodeIds cond ++ nodeIds vtrue) (nodeIdsOpt vfalse) hn
          have hp12 := List.nodup_append.1 hparts.1
          have hf1 := ih (sizeOf cond) (by simp at hle; omega) ht cond
            le_rfl m m1 hc hp12.1
          have hf2 := ih (sizeOf vtrue) (by simp at hle; omega) ht vtrue
            le_rfl m1 m2 hv hp12.2.1
          have hf3 := checkTernOpt_facts ht vfalse (fun x hx =>
            ih (sizeOf x) (by subst hx; simp at hle; omega) ht x le_rfl)
            m2 m' h hparts.2.1
          exact TravFacts.comp3_cons i hf1.1 hf2.1 hf3 hn
    | forStmt i finit cond oneach body =>
      simp only [checkTern] at h
      cases h1 : checkTern ht finit m with
      | none => rw [h1] at h; simp at h
      | some m1 =>
        rw [h1] at h
        dsimp only [] at h
        cases h2 : checkTern ht cond m1 with
        | none => rw [h2] at h; simp at h
        | some m2 =>
          rw [h2] at h
          dsimp only [] at h
          cases h3 : checkTern ht oneach m2 with
          | none => rw [h3] at h; simp at h
          | some m3 =>
            rw [h3] at h
            dsimp only [] at h
            simp only [nodeIds, nodeId, ternPairIds, ternValsIds] at hn ⊢
            have hparts := nodup_cons_append i
              (nodeIds finit ++ nodeIds cond ++ nodeIds oneach)
              (nodeIds body) hn
            have hp123 := List.nodup_append.1 hparts.1
            have hp12 := List.nodup_append.1 hp123.1
            have hff := ih (sizeOf finit) (by simp at hle; omega) ht finit
              le_rfl m m1 h1 hp12.1
            have hfc := ih (sizeOf cond) (by simp at hle; omega) ht cond
              le_rfl m1 m2 h2 hp12.2.1
            have hfo := ih (sizeOf oneach) (by simp at hle; omega) ht
              oneach le_rfl m2 m3 h3 hp123.2.1
            have hfb := ih (sizeOf body) (by simp at hle; omega) ht body
              le_rfl m3 m' h hparts.2.1
            exact TravFacts.comp4_cons i hff.1 hfc.1 hfo.1 hfb.1 hn
    | opBinary i op l r =>
      cases op
      case structdec =>
        simp only [checkTern] at h
        cases hl : checkTern ht l m with
        | none => rw [hl] at h; simp at h
        | some m1 =>
          rw [hl] at h
          dsimp only [] at h
          injection h with h
          subst h
          simp only [nodeIds, nodeId, ternPairIds, ternValsIds] at hn ⊢
          have hparts := nodup_cons_append i (nodeIds l) (nodeIds r) hn
          have hfl := ih (sizeOf l) (by simp at hle; omega) ht l le_rfl
            m m1 hl hparts.1
          refine ⟨hfl.1.mono ?_ ?_, ?_⟩
          · intro k hk
            simp only [List.mem_cons, List.mem_append]
            exact Or.inr (Or.inl hk)
          · intro k hk
            simp only [List.mem_cons, List.mem_append, not_or] at hk
            exact hk.2.1
          · exact fun hip => hparts.2.2.2.1 (hfl.1.2.2.2.1 i hip)
      case structptrdec =>
        simp only [checkTern] at h
        cases hl : checkTern ht l m with
        | none => rw [hl] at h; simp at h
        | some m1 =>
          rw [hl] at h
          dsimp only [] at h
          injection h with h
          subst h
          simp only [nodeIds, nodeId, ternPairIds, ternValsIds] at hn ⊢
          have hparts := nodup_cons_append i (nodeIds l) (nodeIds r) hn
          have hfl := ih (sizeOf l) (by simp at hle; omega) ht l le_rfl
            m m1 hl hparts.1
          refine ⟨hfl.1.mono ?_ ?_, ?_⟩
          · intro k hk
            simp only [List.mem_cons, List.mem_append]
            exact Or.inr (Or.inl hk)
          · intro k hk
            simp only [List.mem_cons, List.mem_append, not_or] at hk
            exact hk.2.1
          · exact fun hip => hparts.2.2.2.1 (hfl.1.2.2.2.1 i hip)
      case ternarycond =>
        simp only [checkTern] at h
        cases hl : checkTern ht l m with
        | none => rw [hl] at h; simp at h
        | some m1 =>
          rw [hl] at h
          dsimp only [] at h
          cases hr : checkTern ht r m1 with
          | none => rw [hr] at h; simp at h
          | some m2 =>
            rw [hr] at h
            dsimp only [] at h
            injection h with h
            subst h
            simp only [nodeIds, nodeId, ternPairIds, ternValsIds] at hn ⊢
            have hparts := nodup_cons_append i (nodeIds l) (nodeIds r) hn
            have hfl := ih (sizeOf l) (by simp at hle; omega) ht l le_rfl
              m m1 hl hparts.1
            have hfr := ih (sizeOf r) (by simp at hle; omega) ht r le_rfl
              m1 m2 hr hparts.2.1
            exact travfacts_terncond i ht l r hfl.1 hfr.1 hfr.2 hn
      case ternaryvals =>
        simp only [checkTern] at h
        cases hl : checkTern ht l m with
        | none => rw [hl] at h; simp at h
        | some m1 =>
          rw [hl] at h
          dsimp only [] at h
          cases hr : checkTern ht r m1 with
          | none => rw [hr] at h; simp at h
          | some m2 =>
            rw [hr] at h
            dsimp only [] at h
            injection h with h
            subst h
            simp only [nodeIds, nodeId, ternPairIds, ternValsIds] at hn ⊢
            have hparts := nodup_cons_append i (nodeIds l) (nodeIds r) hn
            have hfl := ih (sizeOf l) (by simp at hle; omega) ht l le_rfl
              m m1 hl hparts.1
            have hfr := ih (sizeOf r) (by simp at hle; omega) ht r le_rfl
              m1 m2 hr hparts.2.1
            exact travfacts_ternvals i hfl.1 hfr.1 hn
      all_goals
        simp only [checkTern] at h
        cases hl : checkTern ht l m with
        | none => rw [hl] at h; simp at h
        | some m1 =>
          rw [hl] at h
          dsimp only [] at h
          cases hr : checkTern ht r m1 with
          | none => rw [hr] at h; simp at h
          | some m2 =>
            rw [hr] at h
            dsimp only [] at h
            injection h with h
            subst h
            simp only [nodeIds, nodeId, ternPairIds, ternValsIds] at hn ⊢
            have hparts := nodup_cons_append i (nodeIds l) (nodeIds r) hn
            have hfl := ih (sizeOf l) (by simp at hle; omega) ht l le_rfl
              m m1 hl hparts.1
            have hfr := ih (sizeOf r) (by simp at hle; omega) ht r le_rfl
              m1 m2 hr hparts.2.1
            exact TravFacts.comp_cons i hfl.1 hfr.1 hn

/-- **C7**: `MarkTernaryVal` stores count 1 for a ':' node id; a '?' node
whose condition has a type and whose right child is a stored ':' node
increments that count by one; after a successful analysis traversal of a
tree with distinct node ids, every such ?/: pair id reads exactly 2 and
every visited ':' id without its '?' reads 1 (hence not 2); and
`checkTernaries` reports exactly the stored ids whose final count is not
2. -/
theorem c7_ternary_pair_counting :
    (∀ (m : TernMap) (i : Nat), (markTernaryVal m i).lookup i = some 1) ∧
    (∀ (ht : Nat → Bool) (m : TernMap) (l : GoNode) (rid : Nat)
      (a b : GoNode) (c : Nat), ht (nodeId l) = true →
      m.lookup rid = some c →
      checkTernaryCond ht m l (.opBinary rid .ternaryvals a b) =
        setTern m rid (c + 1)) ∧
    (∀ (ht : Nat → Bool) (T : GoNode) (m' : TernMap),
      checkTern ht T [] = some m' → (nodeIds T).Nodup →
      (∀ k ∈ ternPairIds ht T, m'.lookup k = some 2) ∧
      (∀ k ∈ ternValsIds T, k ∉ ternPairIds ht T →
        m'.lookup k = some 1)) ∧
    (∀ (m : TernMap) (k : Nat),
      k ∈ checkTernaries m ↔ ∃ c, (k, c) ∈ m ∧ c ≠ 2) := by
  refine ⟨?_, ?_, ?_, ?_⟩
  · exact fun m i => setTern_lookup_eq m i 1
  · intro ht m l rid a b c hht hlk
    simp only [checkTernaryCond, hht, not_true_eq_false, if_false]
    rw [hlk]
  · intro ht T m' h hnd
    have hf := checkTern_facts (sizeOf T) ht T le_rfl [] m' h hnd
    exact ⟨fun k hk => hf.1.2.1 k hk, fun k hk hnp => hf.1.2.2.1 k hk hnp⟩
  · intro m k
    constructor
    · intro hk
      simp only [checkTernaries, List.mem_map, List.mem_filter] at hk
      obtain ⟨⟨k', c⟩, ⟨hm, hne⟩, hk1⟩ := hk
      dsimp only [] at hk1
      subst hk1
      refine ⟨c, hm, ?_⟩
      simpa using hne
    · rintro ⟨c, hm, hne⟩
      simp only [checkTernaries, List.mem_map, List.mem_filter]
      exact ⟨(k, c), ⟨hm, by simpa⟩, rfl⟩

/-- the pair counting applied at the concrete expression
`true ? 1 : 2` (ids 1-5, every node typed). -/
theorem c7_ternary_pair_counting_witness :
    ([(3, 2)] : TernMap).lookup 3 = some 2 :=
  ((c7_ternary_pair_counting.2.2.1 (fun _ => true)
      (.opBinary 1 .ternarycond (.boolLit 2 true)
        (.opBinary 3 .ternaryvals (.numeric 4 1 10) (.numeric 5 2 10)))
      [(3, 2)] (by decide) (by decide)).1) 3 (by decide)

end C0
